import Mathlib

/-!
Verification development for the extension-handler orchestrator
(`azurelinuxagent/ga/exthandlers.py`).  The Python source is shallowly
embedded: pure functions become Lean functions, the file system and the
protocol collaborators become explicit inputs, exceptions become
`Except`/`Option` values, and the externally observable actions of a code
path (commands launched, files removed, sleeps) become event traces.
-/

/-! ## A small JSON model and the Python primitive operations used by the
status parser.  Python exceptions that can escape the parsing code are kept
distinct because `collect_ext_status` catches only some of them. -/

inductive JValue where
  | jnull
  | jbool (b : Bool)
  | jnum (n : Int)
  | jstr (s : String)
  | jarr (elems : List JValue)
  | jobj (fields : List (String × JValue))

inductive PyExc where
  | ioError
  | extensionError
  | valueError
  | indexError
  | keyError
  | typeError
  | attributeError
deriving DecidableEq

/-- Python `len(v)`: sequences and mappings have a length, other values raise
`TypeError`. -/
def pyLen : JValue → Except PyExc Nat
  | JValue.jarr xs => Except.ok xs.length
  | JValue.jobj fs => Except.ok fs.length
  | JValue.jstr s => Except.ok s.length
  | _ => Except.error PyExc.typeError

/-- Python `v[0]`: on a list the first element (or `IndexError` when empty), on
a string its first character, on a dict `KeyError` (the keys here are strings),
otherwise `TypeError`. -/
def pyIndexZero : JValue → Except PyExc JValue
  | JValue.jarr [] => Except.error PyExc.indexError
  | JValue.jarr (x :: _) => Except.ok x
  | JValue.jstr s =>
      if s.isEmpty then Except.error PyExc.indexError
      else Except.ok (JValue.jstr (s.take 1))
  | JValue.jobj _ => Except.error PyExc.keyError
  | _ => Except.error PyExc.typeError

/-- Python `v[k]` for a string key `k`: only dicts support it; a missing key is
`KeyError`, a non-dict raises `TypeError`. -/
def pyIndexStr (v : JValue) (k : String) : Except PyExc JValue :=
  match v with
  | JValue.jobj fs =>
      match List.lookup k fs with
      | some x => Except.ok x
      | none => Except.error PyExc.keyError
  | _ => Except.error PyExc.typeError

/-- Python `k in v` for a string `k`: key test on dicts, membership on lists,
substring test on strings, `TypeError` otherwise. -/
def pyContains (v : JValue) (k : String) : Except PyExc Bool :=
  match v with
  | JValue.jobj fs => Except.ok (fs.any (fun p => p.1 == k))
  | JValue.jarr xs =>
      Except.ok (xs.any (fun x => match x with | JValue.jstr s => s == k | _ => false))
  | JValue.jstr s =>
      Except.ok (if k = "" then true else decide (2 ≤ (s.splitOn k).length))
  | _ => Except.error PyExc.typeError

/-- Python `iter(v)`: lists yield their elements, strings their characters,
dicts their keys; other values raise `TypeError`. -/
def pyIter : JValue → Except PyExc (List JValue)
  | JValue.jarr xs => Except.ok xs
  | JValue.jstr s => Except.ok (s.toList.map (fun c => JValue.jstr (String.mk [c])))
  | JValue.jobj fs => Except.ok (fs.map (fun p => JValue.jstr p.1))
  | _ => Except.error PyExc.typeError

/-- Python `fields.get(k)` on a dict, with the caller-side `is None` view:
both a missing key and a JSON `null` value read back as `None`. -/
def pyGetOpt (fs : List (String × JValue)) (k : String) : Option JValue :=
  match List.lookup k fs with
  | none => none
  | some JValue.jnull => none
  | some v => some v

/-- Python `fields.get(k, d)` on a dict: the stored value if the key is
present (a stored JSON `null` is returned, not the default). -/
def pyGetD (fs : List (String × JValue)) (k : String) (d : JValue) : JValue :=
  (List.lookup k fs).getD d

/-- Python attribute access `v.get(...)` requires a dict; other values raise
`AttributeError`. -/
def asObjAttr : JValue → Except PyExc (List (String × JValue))
  | JValue.jobj fs => Except.ok fs
  | _ => Except.error PyExc.attributeError

/-! ## Constants from the head of `exthandlers.py`. -/

def EXTENSION_STATUS_ERROR : String := "error"

def EXTENSION_STATUS_SUCCESS : String := "success"

def VALID_EXTENSION_STATUS : List String := ["transitioning", "error", "success", "warning"]

def EXTENSION_TERMINAL_STATUSES : List String := ["error", "success"]

def NUMBER_OF_DOWNLOAD_RETRIES : Nat := 5

def DISABLE_FAILED : String := "AZURE_GUEST_AGENT_DISABLE_FAILED"

def UNINSTALL_FAILED : String := "AZURE_GUEST_AGENT_UNINSTALL_FAILED"

def EXTENSION_PATH : String := "AZURE_GUEST_AGENT_EXTENSION_PATH"

def EXTENSION_VERSION : String := "AZURE_GUEST_AGENT_EXTENSION_VERSION"

/-- Error codes compared by the orchestrator.  The numeric taxonomy
(`ExtensionErrorCodes`) lives outside this file, so the named codes are kept
symbolic; `num n` stands for a literal integer code such as the default `-1`,
and `fromStatusFile v` for a code copied verbatim out of a status file.  The
named plugin codes are pairwise distinct integers, all different from `-1`. -/
inductive ECode where
  | num (n : Int)
  | fromStatusFile (v : JValue)
  | pluginSettingsStatusInvalid
  | pluginManifestDownloadError
  | pluginEnableProcessingFailed
  | pluginDisableProcessingFailed
  | pluginInstallProcessingFailed
  | pluginUpdateProcessingFailed

/-! ## StatusParser (`parse_formatted_message`, `parse_ext_substatus`,
`parse_ext_status`, exthandlers.py lines 90-149). -/

/-- Source `validate_has_key(obj, key, fullname)`: raises `ExtensionError`
when `key not in obj` (and whatever `in` itself raises on a non-container). -/
def validate_has_key (obj : JValue) (key : String) : Except PyExc Unit := do
  let b ← pyContains obj key
  if b then Except.ok () else Except.error PyExc.extensionError

/-- Source `validate_in_range(val, valid_range, name)`: raises
`ExtensionError` when the value is not in the list (a non-string value is
never a member of a list of strings). -/
def validate_in_range (val : JValue) (valid : List String) : Except PyExc Unit :=
  match val with
  | JValue.jstr s => if valid.contains s then Except.ok () else Except.error PyExc.extensionError
  | _ => Except.error PyExc.extensionError

/-- Source `parse_formatted_message` (lines 100-105): `None` passes through,
otherwise `lang` and `message` keys are required and the `message` value is
returned. -/
def parse_formatted_message : Option JValue → Except PyExc (Option JValue)
  | none => Except.ok none
  | some fm => do
    let _ ← validate_has_key fm "lang"
    let _ ← validate_has_key fm "message"
    let fs ← asObjAttr fm
    Except.ok (pyGetOpt fs "message")

structure ExtensionSubStatusRec where
  name : Option JValue
  status : Option JValue
  code : JValue
  message : Option JValue

/-- Source `parse_ext_substatus` (lines 108-119). -/
def parse_ext_substatus (substatus : JValue) : Except PyExc ExtensionSubStatusRec := do
  let _ ← validate_has_key substatus "status"
  let sv ← pyIndexStr substatus "status"
  let _ ← validate_in_range sv VALID_EXTENSION_STATUS
  let fs ← asObjAttr substatus
  let msg ← parse_formatted_message (pyGetOpt fs "formattedMessage")
  Except.ok { name := pyGetOpt fs "name", status := pyGetOpt fs "status",
              code := pyGetD fs "code" (JValue.jnum 0), message := msg }

/-- In-memory `ExtensionStatus` object.  Its constructor lives in the protocol
layer outside this file; per the spec all fields other than the sequence
number start unset. -/
structure ExtensionStatusRec where
  seq_no : Int
  configurationAppliedTime : Option JValue
  operation : Option JValue
  status : Option String
  code : Option ECode
  message : Option JValue
  substatusList : List ExtensionSubStatusRec

/-- The substatus loop at the end of `parse_ext_status` (lines 147-149):
`None` entries are skipped, parsed entries are appended one at a time, and an
exception part-way through keeps the entries appended so far. -/
def appendSubstatuses (ext_status : ExtensionStatusRec) :
    List JValue → ExtensionStatusRec × Option PyExc
  | [] => (ext_status, none)
  | v :: rest =>
    match v with
    | JValue.jnull => appendSubstatuses ext_status rest
    | _ =>
      match parse_ext_substatus v with
      | Except.error e => (ext_status, some e)
      | Except.ok sub =>
          appendSubstatuses
            { ext_status with substatusList := ext_status.substatusList ++ [sub] } rest

/-- Source `parse_ext_status(ext_status, data)` (lines 122-149).  The Python
function mutates `ext_status` field by field; here it returns the updated
record together with the exception that escaped, if any, so that fields
already assigned before the raise are preserved exactly as in the source. -/
def parse_ext_status (ext_status : ExtensionStatusRec) (data : JValue) :
    ExtensionStatusRec × Option PyExc :=
  match data with
  | JValue.jnull => (ext_status, none)
  | _ =>
    match (do
        let _ ← pyLen data
        let d0 ← pyIndexZero data
        let _ ← validate_has_key d0 "status"
        let status_data ← pyIndexStr d0 "status"
        let _ ← validate_has_key status_data "status"
        let statusv ← pyIndexStr status_data "status"
        let sfields ← asObjAttr status_data
        Except.ok (sfields, statusv) : Except PyExc (List (String × JValue) × JValue)) with
    | Except.error e => (ext_status, some e)
    | Except.ok (sfields, statusv) =>
      let status :=
        match statusv with
        | JValue.jstr s => if VALID_EXTENSION_STATUS.contains s then s else EXTENSION_STATUS_ERROR
        | _ => EXTENSION_STATUS_ERROR
      let st1 := { ext_status with
        configurationAppliedTime := pyGetOpt sfields "configurationAppliedTime",
        operation := pyGetOpt sfields "operation",
        status := some status,
        code := some (ECode.fromStatusFile (pyGetD sfields "code" (JValue.jnum 0))) }
      match parse_formatted_message (pyGetOpt sfields "formattedMessage") with
      | Except.error e => (st1, some e)
      | Except.ok msg =>
        let st2 := { st1 with message := msg }
        let substatus_raw := pyGetD sfields "substatus" (JValue.jarr [])
        let substatus_list :=
          match substatus_raw with
          | JValue.jnull => JValue.jarr []
          | v => v
        match pyIter substatus_list with
        | Except.error e => (st2, some e)
        | Except.ok entries => appendSubstatuses st2 entries

/-! ## Status file collection (`ExtHandlerInstance.collect_ext_status`,
lines 1091-1116).  Reading the on-disk status file is abstracted as a
`FileRead` input: the read can fail with `IOError`, succeed with text that
`json.loads` rejects (`ValueError`), or succeed with parsed JSON. -/

inductive RawContent where
  | invalidJson
  | json (v : JValue)

inductive FileRead where
  | ioError
  | content (c : RawContent)

/-- The freshly constructed `ExtensionStatus(seq_no=seq_no)` of
`collect_ext_status` line 1098. -/
def initExtensionStatus (seq_no : Int) : ExtensionStatusRec :=
  { seq_no := seq_no, configurationAppliedTime := none, operation := none,
    status := none, code := none, message := none, substatusList := [] }

/-- Source `collect_ext_status` (lines 1091-1116): returns `None` when the
sequence number is `-1`; otherwise builds an `ExtensionStatus` and fills it
from the status file, mapping `IOError` to code `-1`, `ValueError` (malformed
JSON) to code `-1`, and `ExtensionError` (schema violations) to
`PluginSettingsStatusInvalid`.  Any other exception propagates. -/
def collect_ext_status (seq_no : Int) (file : FileRead) :
    Except PyExc (Option ExtensionStatusRec) :=
  if seq_no = -1 then Except.ok none else
  let ext_status : ExtensionStatusRec := initExtensionStatus seq_no
  match file with
  | FileRead.ioError =>
      Except.ok (some { ext_status with
        message := some (JValue.jstr "Failed to get status file"),
        code := some (ECode.num (-1)),
        status := some EXTENSION_STATUS_ERROR })
  | FileRead.content RawContent.invalidJson =>
      Except.ok (some { ext_status with
        message := some (JValue.jstr "Malformed status file"),
        code := some (ECode.num (-1)),
        status := some EXTENSION_STATUS_ERROR })
  | FileRead.content (RawContent.json v) =>
      match parse_ext_status ext_status v with
      | (st, none) => Except.ok (some st)
      | (st, some PyExc.extensionError) =>
          Except.ok (some { st with
            message := some (JValue.jstr "Malformed status file"),
            code := some ECode.pluginSettingsStatusInvalid,
            status := some EXTENSION_STATUS_ERROR })
      | (_, some e) => Except.error e

/-! ## Heartbeat collection (`collect_heartbeat`, lines 1162-1195, and the
heartbeat override in `report_ext_handler_status`, lines 655-660). -/

/-- Source `is_responsive` (lines 1186-1195): the heartbeat file counts as
responsive when `int(time.time() - mtime)` is at most 600 seconds. -/
def is_responsive (age_seconds : Int) : Bool := age_seconds ≤ 600

structure HeartbeatInput where
  report_heartbeat : Bool
  file_is_file : Bool
  age_seconds : Int
  read : FileRead

/-- The literal dict returned for a stale heartbeat (lines 1172-1176). -/
def unresponsiveHeartbeat : JValue :=
  JValue.jobj [("status", JValue.jstr "Unresponsive"), ("code", JValue.jnum (-1)),
               ("message", JValue.jstr "Extension heartbeat is not responsive")]

/-- Source `collect_heartbeat` (lines 1162-1184): `None` without the manifest
flag; `ExtensionError` when the file is missing, unreadable or malformed
(`IOError`, `ValueError` and `KeyError` are re-raised as `ExtensionError`;
other exceptions such as `IndexError` propagate unchanged); the fixed
Unresponsive dict when the mtime is stale; otherwise
`json.loads(file)[0]['heartbeat']`. -/
def collect_heartbeat (inp : HeartbeatInput) : Except PyExc (Option JValue) :=
  if inp.report_heartbeat = false then Except.ok none
  else if inp.file_is_file = false then Except.error PyExc.extensionError
  else if is_responsive inp.age_seconds = false then Except.ok (some unresponsiveHeartbeat)
  else match inp.read with
    | FileRead.ioError => Except.error PyExc.extensionError
    | FileRead.content RawContent.invalidJson => Except.error PyExc.extensionError
    | FileRead.content (RawContent.json v) =>
      match (do
          let x ← pyIndexZero v
          pyIndexStr x "heartbeat" : Except PyExc JValue) with
      | Except.ok hb => Except.ok (some hb)
      | Except.error PyExc.keyError => Except.error PyExc.extensionError
      | Except.error e => Except.error e

/-- The heartbeat branch of `report_ext_handler_status` (lines 655-660): a
collected heartbeat replaces the handler status with the dict's own `status`
entry; a caught `ExtensionError` leaves the in-memory status unchanged (it
only rewrites the persisted `HandlerStatus` file). -/
def report_heartbeat_status (orig : Option JValue) (inp : HeartbeatInput) :
    Except PyExc (Option JValue) :=
  match collect_heartbeat inp with
  | Except.ok none => Except.ok orig
  | Except.ok (some hb) =>
      match hb with
      | JValue.jobj fs => Except.ok (pyGetOpt fs "status")
      | _ => Except.error PyExc.attributeError
  | Except.error PyExc.extensionError => Except.ok orig
  | Except.error e => Except.error e

/-! ## Versions.  Modelled from the spec: `FlexibleVersion` lives outside this
file; per the spec a version is a dotted numeric sequence compared
component-wise with numeric ordering, and a requested version may be
glob-capable (such as `1.1.*`), matching exactly without the star and by
numeric-prefix with it.  Equality between a glob and a concrete version is
exact structural equality, so a starred spec never equals a concrete
version. -/

def versionLe : List Nat → List Nat → Bool
  | [], _ => true
  | _ :: _, [] => false
  | a :: xs, b :: ys => if a < b then true else if b < a then false else versionLe xs ys

def versionLt : List Nat → List Nat → Bool
  | [], [] => false
  | [], _ :: _ => true
  | _ :: _, [] => false
  | a :: xs, b :: ys => if a < b then true else if b < a then false else versionLt xs ys

def isVersionPrefixOf : List Nat → List Nat → Bool
  | [], _ => true
  | _ :: _, [] => false
  | a :: xs, b :: ys => a == b && isVersionPrefixOf xs ys

structure VersionSpec where
  parts : List Nat
  hasStar : Bool
deriving DecidableEq

def VersionSpec.matches (r : VersionSpec) (v : List Nat) : Bool :=
  if r.hasStar then isVersionPrefixOf r.parts v else r.parts == v

def VersionSpec.eqVersion (r : VersionSpec) (v : List Nat) : Bool :=
  !r.hasStar && r.parts == v

def versionString (v : List Nat) : String :=
  String.intercalate "." (v.map toString)

/-! ## Version decision (`ExtHandlerInstance.decide_version`, lines 685-742). -/

structure ExtensionPkg where
  version : List Nat
  uris : List String
deriving DecidableEq

def pkgLe (p q : ExtensionPkg) : Prop := versionLe p.version q.version = true

instance : DecidableRel pkgLe :=
  fun p q => inferInstanceAs (Decidable (versionLe p.version q.version = true))

structure DecideResult where
  pkg : Option ExtensionPkg
  handlerVersion : Option VersionSpec
  is_upgrade : Bool
deriving DecidableEq

/-- Source `decide_version` (lines 685-742).  The package list comes from the
protocol; the installed version string is read from disk
(`get_installed_version`).  The packages are sorted ascending by version and
scanned once; the last package equal to the installed version becomes
`installed_pkg` and the last package matching the requested version becomes
`selected_pkg`.  For `uninstall`/`disabled` targets the installed package is
used and the working version is pinned to the installed version; otherwise the
selected package is used.  `is_upgrade` is set when there is no installed
package or the resulting package's version differs from the installed one. -/
def decide_version (pkgs : List ExtensionPkg) (requested_version : VersionSpec)
    (installed_version_string : Option VersionSpec) (target_state : String) : DecideResult :=
  let installed_version := installed_version_string.getD requested_version
  let sorted := List.insertionSort pkgLe pkgs
  let scan := sorted.foldl
    (fun (acc : Option ExtensionPkg × Option ExtensionPkg) pkg =>
      let inst := if installed_version.eqVersion pkg.version then some pkg else acc.1
      let sel := if requested_version.matches pkg.version then some pkg else acc.2
      (inst, sel))
    (none, none)
  let installed_pkg := scan.1
  let selected_pkg := scan.2
  let branch :=
    if target_state = "uninstall" ∨ target_state = "disabled" then
      (installed_pkg, some installed_version)
    else
      (selected_pkg,
        match selected_pkg with
        | some p => some { parts := p.version, hasStar := false }
        | none => some requested_version)
  let is_upgrade :=
    match installed_pkg with
    | none => true
    | some ip =>
      match branch.1 with
      | some p => decide (p.version ≠ ip.version)
      | none => false
  { pkg := branch.1, handlerVersion := branch.2, is_upgrade := is_upgrade }

/-! ## Update choreography
(`ExtHandlersHandler._update_extension_handler_and_return_if_failed`,
lines 495-531, together with `ExtHandlerInstance.update` lines 1015-1035,
`update_with_install` lines 1037-1044 and the dispatcher `handle_ext_handler`
lines 407-452).  External commands, file copies and directory removals are
recorded as a trace of events; handler-state file writes are not part of the
trace.  The per-phase environment lists only the phase-specific variables:
`launch_command` additionally merges the process environment plus
`AZURE_GUEST_AGENT_EXTENSION_PATH`/`AZURE_GUEST_AGENT_EXTENSION_VERSION`,
which no claim inspects. -/

structure HandlerId where
  name : String
  version : List Nat
deriving DecidableEq

def get_full_name (h : HandlerId) : String := h.name ++ "-" ++ versionString h.version

def get_base_dir (libDir : String) (h : HandlerId) : String :=
  libDir ++ "/" ++ get_full_name h

/-- Source `version_gt` (lines 748-751), comparing handler versions. -/
def version_gt (self other : HandlerId) : Bool := versionLt other.version self.version

inductive UpdateEvent where
  | launchDisable (h : HandlerId) (ok : Bool)
  | reportOldFailure (h : HandlerId)
  | copyStatusFiles (src dst : HandlerId)
  | launchUpdate (cwd : String) (env : List (String × String))
  | launchUninstall (h : HandlerId) (ok : Bool)
  | removeHandlerDir (h : HandlerId)
  | launchInstall (h : HandlerId) (env : List (String × String))
deriving DecidableEq

/-- The phase environment built by `ExtHandlerInstance.update`
(lines 1015-1021): `VERSION` always, `AZURE_GUEST_AGENT_DISABLE_FAILED=1`
only when the old handler's disable failed. -/
def updateCommandEnv (version : String) (disable_failed : Bool) : List (String × String) :=
  [("VERSION", version)] ++ (if disable_failed then [(DISABLE_FAILED, "1")] else [])

/-- Source `ExtHandlerInstance.update` (lines 1015-1035): runs the manifest's
update command from the handler's own base directory with the phase
environment; when the command fails the handler state is set to `Failed` and
the `ExtensionError` is re-raised (second component `false`). -/
def handlerUpdate (libDir : String) (self : HandlerId) (versionArg : Option String)
    (disable_failed : Bool) (updateOk : Bool) : List UpdateEvent × Bool :=
  let version := versionArg.getD (versionString self.version)
  let env := updateCommandEnv version disable_failed
  ([UpdateEvent.launchUpdate (get_base_dir libDir self) env], updateOk)

inductive UpdateOutcome where
  | ok (uninstall_failed : Bool)
  | extensionUpdateError
  | extensionError
deriving DecidableEq

structure UpdateSeqInput where
  libDir : String
  oldH : HandlerId
  newH : HandlerId
  disableOk : Bool
  uninstallOk : Bool
  updateOk : Bool
  continueOnUpdateFailure : Bool
  updateWithInstall : Bool
deriving DecidableEq

/-- Source `_update_extension_handler_and_return_if_failed` (lines 495-531).
Both old-handler commands (`disable`, `uninstall`) run through the wrapper
`execute_old_handler_command_and_return_if_succeeds`: a failure is reported as
a telemetry event by the OLD handler and, unless the NEW handler's manifest
has `continueOnUpdateFailure`, re-raised as `ExtensionUpdateError`.  The
update command runs on the new handler when its version is strictly greater
than the old one and otherwise on the old handler with the new version string,
always with `VERSION` set to the new handler's version. -/
def update_sequence (inp : UpdateSeqInput) : List UpdateEvent × UpdateOutcome :=
  let disableEvents :=
    if inp.disableOk then [UpdateEvent.launchDisable inp.oldH true]
    else [UpdateEvent.launchDisable inp.oldH false, UpdateEvent.reportOldFailure inp.oldH]
  if ¬inp.disableOk ∧ ¬inp.continueOnUpdateFailure then
    (disableEvents, UpdateOutcome.extensionUpdateError)
  else
  let disable_failed := !inp.disableOk
  let copyEvents := [UpdateEvent.copyStatusFiles inp.oldH inp.newH]
  let upd :=
    if version_gt inp.newH inp.oldH then
      handlerUpdate inp.libDir inp.newH none disable_failed inp.updateOk
    else
      handlerUpdate inp.libDir inp.oldH (some (versionString inp.newH.version)) disable_failed
        inp.updateOk
  if upd.2 = false then
    (disableEvents ++ copyEvents ++ upd.1, UpdateOutcome.extensionError)
  else
  let uninstEvents :=
    if inp.uninstallOk then [UpdateEvent.launchUninstall inp.oldH true]
    else [UpdateEvent.launchUninstall inp.oldH false, UpdateEvent.reportOldFailure inp.oldH]
  if ¬inp.uninstallOk ∧ ¬inp.continueOnUpdateFailure then
    (disableEvents ++ copyEvents ++ upd.1 ++ uninstEvents, UpdateOutcome.extensionUpdateError)
  else
  let uninstall_failed := !inp.uninstallOk
  let removeEvents := [UpdateEvent.removeHandlerDir inp.oldH]
  let installEnv := if uninstall_failed then [(UNINSTALL_FAILED, "1")] else []
  let installEvents :=
    if inp.updateWithInstall then [UpdateEvent.launchInstall inp.newH installEnv] else []
  (disableEvents ++ copyEvents ++ upd.1 ++ uninstEvents ++ removeEvents ++ installEvents,
   UpdateOutcome.ok uninstall_failed)

/-! ## The per-handler error dispatcher (`handle_ext_handler`, lines 442-452,
with `handle_ext_handler_error` lines 454-459 and
`handle_ext_handler_download_error` lines 461-470). -/

inductive RaisedError where
  | extensionUpdateError (code : ECode)
  | extensionOperationError (code : ECode)
  | extensionDownloadError (code : ECode)
  | extensionError (code : ECode)
  | otherException

structure DispatchEffects where
  statusCode : ECode
  statusWritten : Bool
  telemetryReported : Bool

/-- Source `handle_ext_handler_error` (lines 454-459): always writes the
handler status with the error's code; reports a telemetry event only when
asked to. -/
def handle_ext_handler_error (code : ECode) (report_telemetry_event : Bool) : DispatchEffects :=
  { statusCode := code, statusWritten := true, telemetryReported := report_telemetry_event }

/-- The except-ladder of `handle_ext_handler` (lines 442-452):
`ExtensionUpdateError` is written to handler status with
`report_telemetry_event=False` because the old version already reported it;
download errors report telemetry only when the artifact error gate has
triggered; every other error writes status and reports. -/
def handle_ext_handler_dispatch (gate_triggered : Bool) : RaisedError → DispatchEffects
  | RaisedError.extensionUpdateError c => handle_ext_handler_error c false
  | RaisedError.extensionOperationError c => handle_ext_handler_error c true
  | RaisedError.extensionDownloadError c =>
      { statusCode := c, statusWritten := true, telemetryReported := gate_triggered }
  | RaisedError.extensionError c => handle_ext_handler_error c true
  | RaisedError.otherException => handle_ext_handler_error (ECode.num (-1)) true

/-! ## Uninstall choreography (`ExtHandlersHandler.handle_uninstall`,
lines 541-556).  The `disable()` call for an Enabled handler sits outside the
try/except, so an `ExtensionError` from it propagates out of
`handle_uninstall`; only the `uninstall()` call is wrapped.  The second
component records whether the method returned normally (`true`) or the
exception escaped (`false`). -/

inductive UninstallEvent where
  | launchDisable (ok : Bool)
  | launchUninstall (ok : Bool)
  | reportFailureEvent
  | removeHandlerDir
deriving DecidableEq

def handle_uninstall (handler_state : String) (disableOk uninstallOk : Bool) :
    List UninstallEvent × Bool :=
  if handler_state ≠ "NotInstalled" then
    if handler_state = "Enabled" ∧ disableOk = false then
      ([UninstallEvent.launchDisable false], false)
    else
      let disableEvents :=
        if handler_state = "Enabled" then [UninstallEvent.launchDisable true] else []
      let uninstallEvents :=
        if uninstallOk then [UninstallEvent.launchUninstall true]
        else [UninstallEvent.launchUninstall false, UninstallEvent.reportFailureEvent]
      (disableEvents ++ uninstallEvents ++ [UninstallEvent.removeHandlerDir], true)
  else ([UninstallEvent.removeHandlerDir], true)

/-! ## Package download (`ExtHandlerInstance.download` lines 842-888, with
`_download_extension_package` lines 818-828 and `_unzip_extension_package`
lines 830-840).  Network and unzip successes are oracles indexed by retry
round and URI; `shuffle i` is the URI order produced by `random.shuffle` on
round `i`.  `removePartialDest` stands for the delete of the partially
downloaded destination inside `_download_extension_package`, and
`removeZipAndBaseDir` for the delete of the zip plus the partially extracted
base directory inside `_unzip_extension_package`. -/

inductive DlEvent where
  | unzipCached (ok : Bool)
  | attemptDownload (round : Nat) (uri : String) (ok : Bool)
  | removePartialDest
  | attemptUnzip (round : Nat) (uri : String) (ok : Bool)
  | removeZipAndBaseDir
  | sleep60
deriving DecidableEq

inductive DownloadOutcome where
  | ok
  | noPackageUri
  | manifestDownloadError
deriving DecidableEq

structure DownloadInput where
  uris : List String
  destExists : Bool
  cachedUnzipOk : Bool
  shuffle : Nat → List String
  dlOk : Nat → String → Bool
  uzOk : Nat → String → Bool

/-- The inner `for uri in uris_shuffled` loop of one retry round
(lines 866-872): a failed download removes the partial destination and moves
on; a successful download followed by a failed unzip removes the zip and the
base directory and moves on; the first download+unzip success stops the
round. -/
def tryUris (inp : DownloadInput) (round : Nat) : List String → Bool × List DlEvent
  | [] => (false, [])
  | u :: rest =>
    if inp.dlOk round u = false then
      let r := tryUris inp round rest
      (r.1, DlEvent.attemptDownload round u false :: DlEvent.removePartialDest :: r.2)
    else
      if inp.uzOk round u then
        (true, [DlEvent.attemptDownload round u true, DlEvent.attemptUnzip round u true])
      else
        let r := tryUris inp round rest
        (r.1, DlEvent.attemptDownload round u true :: DlEvent.attemptUnzip round u false ::
              DlEvent.removeZipAndBaseDir :: r.2)

/-- The `while i < NUMBER_OF_DOWNLOAD_RETRIES` loop (lines 861-879): each
failed round is followed by a 60-second sleep before the retry counter is
incremented. -/
def downloadRounds (inp : DownloadInput) (round : Nat) : Nat → Bool × List DlEvent
  | 0 => (false, [])
  | n + 1 =>
    let r := tryUris inp round (inp.shuffle round)
    if r.1 then r
    else
      let rest := downloadRounds inp (round + 1) n
      (rest.1, r.2 ++ [DlEvent.sleep60] ++ rest.2)

/-- Source `download` (lines 842-888): an empty URI list raises immediately; a
pre-existing destination that unzips cleanly is a cached hit with no network
attempt; otherwise up to `NUMBER_OF_DOWNLOAD_RETRIES` shuffled rounds run, and
exhausting them raises `ExtensionDownloadError` with code
`PluginManifestDownloadError`. -/
def download (inp : DownloadInput) : DownloadOutcome × List DlEvent :=
  if inp.uris.length = 0 then (DownloadOutcome.noPackageUri, [])
  else if inp.destExists then
    if inp.cachedUnzipOk then (DownloadOutcome.ok, [DlEvent.unzipCached true])
    else
      let r := downloadRounds inp 0 NUMBER_OF_DOWNLOAD_RETRIES
      (if r.1 then DownloadOutcome.ok else DownloadOutcome.manifestDownloadError,
       DlEvent.unzipCached false :: DlEvent.removeZipAndBaseDir :: r.2)
  else
    let r := downloadRounds inp 0 NUMBER_OF_DOWNLOAD_RETRIES
    (if r.1 then DownloadOutcome.ok else DownloadOutcome.manifestDownloadError, r.2)

/-! ## The dependency-ordered pass (`ExtHandlersHandler.handle_ext_handlers`,
lines 344-365).  A goal-state handler is summarized by its `sort_key()` and by
the oracle `waitOk`: the value `wait_for_handler_successful_completion` would
return for it.  The trace records each dispatch (`handled`) and each gate
(`waited`). -/

structure GoalHandler where
  hid : Nat
  sortKey : Int
  waitOk : Bool
deriving DecidableEq

def ghLe (a b : GoalHandler) : Prop := a.sortKey ≤ b.sortKey

instance : DecidableRel ghLe :=
  fun a b => inferInstanceAs (Decidable (a.sortKey ≤ b.sortKey))

inductive OrchEvent where
  | handled (h : GoalHandler)
  | waited (h : GoalHandler) (ok : Bool)
deriving DecidableEq

/-- Source `max([handler.sort_key() for handler in ...])` (line 351). -/
def maxSortKey : List GoalHandler → Int
  | [] => 0
  | h :: t => t.foldl (fun acc x => max acc x.sortKey) h.sortKey

/-- The `for ext_handler in self.ext_handlers.extHandlers` loop
(lines 354-365): after dispatching a handler whose dependency level `L`
satisfies `0 ≤ L < max_dep_level`, wait for its successful completion; when
the wait fails, break out of the pass. -/
def processHandlers (max_dep_level : Int) : List GoalHandler → List OrchEvent
  | [] => []
  | h :: rest =>
    if 0 ≤ h.sortKey ∧ h.sortKey < max_dep_level then
      if h.waitOk then
        OrchEvent.handled h :: OrchEvent.waited h true :: processHandlers max_dep_level rest
      else [OrchEvent.handled h, OrchEvent.waited h false]
    else OrchEvent.handled h :: processHandlers max_dep_level rest

/-- Source `handle_ext_handlers` (lines 344-365): an empty handler list is a
no-op; otherwise the handlers are sorted ascending by `sort_key()` and
processed with `max_dep_level` taken over the whole list. -/
def handle_ext_handlers (hs : List GoalHandler) : List OrchEvent :=
  match hs with
  | [] => []
  | _ :: _ => processHandlers (maxSortKey hs) (List.insertionSort ghLe hs)

/-! ## Waiting for terminal success (`wait_for_handler_successful_completion`
lines 367-405, `get_ext_handling_status` lines 1118-1131 and
`is_ext_handling_complete` lines 1133-1145).  Time is a discrete clock in
seconds; each sleep advances it by 5.  A sub-extension is summarized by the
status `get_ext_handling_status` would report at each instant. -/

structure ExtHandlingFS where
  seq_no : Int
  status_file_exists : Bool
  collected_status : Option String

/-- Source `get_ext_handling_status` (lines 1118-1131): `None` when there is
no sequence number (no goal-state sequence and no settings file), `warning`
while the status file does not exist yet, otherwise the collected status. -/
def get_ext_handling_status (fs : ExtHandlingFS) : Option String :=
  if fs.seq_no < 0 then none
  else if fs.status_file_exists = false then some "warning"
  else fs.collected_status

/-- Source `is_ext_handling_complete` (lines 1133-1145): a `None` status means
handling is complete with unknown outcome; otherwise handling is complete
exactly on the terminal statuses. -/
def is_ext_handling_complete (status : Option String) : Bool × Option String :=
  match status with
  | none => (true, none)
  | some st =>
      if EXTENSION_TERMINAL_STATUSES.contains st then (true, some st) else (false, some st)

structure SubExt where
  statusAt : Nat → Option String

/-- The polling loop of `wait_for_handler_successful_completion`
(lines 375-380): re-check every 5 seconds while the handling is incomplete and
the clock has not passed the deadline; returns the clock and the status seen
at the final check. -/
def pollLoop (f : Nat → Option String) (deadline t : Nat) : Nat × Option String :=
  if (is_ext_handling_complete (f t)).1 then (t, (is_ext_handling_complete (f t)).2)
  else if h : t ≤ deadline then pollLoop f deadline (t + 5)
  else (t, (is_ext_handling_complete (f t)).2)
termination_by deadline + 5 - t
decreasing_by omega

/-- Source `wait_for_handler_successful_completion` (lines 367-405): for each
sub-extension in turn, poll until complete or past the deadline; return false
on a timeout or on any final status other than `success`, true only when
every sub-extension ends with `success` in time. -/
def wait_for_handler_successful_completion : List SubExt → Nat → Nat → Bool
  | [], _, _ => true
  | e :: rest, deadline, t =>
    let r := pollLoop e.statusAt deadline t
    if deadline < r.1 then false
    else if r.2 ≠ some EXTENSION_STATUS_SUCCESS then false
    else wait_for_handler_successful_completion rest deadline r.1

/-- Declarative success condition for one sub-extension polled from time `t`:
at some poll instant `t + 5k` within the deadline the status is `success`,
and no earlier poll instant was already complete. -/
def extReachesSuccess (f : Nat → Option String) (t deadline : Nat) : Prop :=
  ∃ k, t + 5 * k ≤ deadline ∧ f (t + 5 * k) = some EXTENSION_STATUS_SUCCESS ∧
    ∀ j < k, (is_ext_handling_complete (f (t + 5 * j))).1 = false

/-- Declarative counterpart of the whole wait: every sub-extension reaches
`success` in time, with each one polled from the instant the previous one
finished. -/
def allReachSuccess : List SubExt → Nat → Nat → Prop
  | [], _, _ => True
  | e :: rest, deadline, t =>
    extReachesSuccess e.statusAt t deadline ∧
    allReachSuccess rest deadline (pollLoop e.statusAt deadline t).1

/-! # Theorems -/

/-! ## C10: an empty JSON array escapes `collect_ext_status` as `IndexError`. -/

/-- C10: for every status file whose contents deserialize to a well-formed
but empty JSON array, `collect_ext_status` raises an `IndexError` (from
`data[0]` in `parse_ext_status`) that none of its handlers (`IOError`,
`ExtensionError`, `ValueError`) catches, so the exception propagates out of
the status-collection path instead of producing an `error` extension
status. -/
theorem C10_empty_array_escapes (seq_no : Int) (h : seq_no ≠ -1) :
    collect_ext_status seq_no (FileRead.content (RawContent.json (JValue.jarr []))) =
      Except.error PyExc.indexError := by
  simp [collect_ext_status, parse_ext_status, pyLen, pyIndexZero, h, Bind.bind, Except.bind]

/-- Witness for C10 at the concrete sequence number 0. -/
theorem C10_empty_array_escapes_witness :
    (0 : Int) ≠ -1 ∧
    collect_ext_status 0 (FileRead.content (RawContent.json (JValue.jarr []))) =
      Except.error PyExc.indexError :=
  ⟨by decide, C10_empty_array_escapes 0 (by decide)⟩

/-! ## C1: error codes of `collect_ext_status`. -/

/-- C1 counterexample: a status file that exists but whose contents are not
valid JSON makes `collect_ext_status` return an extension status whose code
is the literal `-1` (the `ValueError` handler), not
`PluginSettingsStatusInvalid` as the claim states. -/
theorem C1_invalid_json_code_counterexample :
    ∃ r, collect_ext_status 0 (FileRead.content RawContent.invalidJson) =
        Except.ok (some r) ∧
      r.status = some EXTENSION_STATUS_ERROR ∧
      r.code = some (ECode.num (-1)) ∧
      r.code ≠ some ECode.pluginSettingsStatusInvalid := by
  refine ⟨_, rfl, rfl, rfl, by simp⟩

/-- C1 as amended: for a status file that exists but whose contents are not
valid JSON, `collect_ext_status` returns status `error` with the literal code
`-1` (the `ValueError` handler); `PluginSettingsStatusInvalid` is used when
the contents are valid JSON but violate the status schema (an
`ExtensionError` from the parser); a read failing with an I/O error returns
status `error` with code `-1`. -/
theorem C1_collect_ext_status_error_codes (seq_no : Int) (h : seq_no ≠ -1)
    (v : JValue) (st : ExtensionStatusRec)
    (hp : parse_ext_status (initExtensionStatus seq_no) v = (st, some PyExc.extensionError)) :
    (∃ r, collect_ext_status seq_no FileRead.ioError = Except.ok (some r) ∧
       r.status = some EXTENSION_STATUS_ERROR ∧ r.code = some (ECode.num (-1))) ∧
    (∃ r, collect_ext_status seq_no (FileRead.content RawContent.invalidJson) =
        Except.ok (some r) ∧
       r.status = some EXTENSION_STATUS_ERROR ∧ r.code = some (ECode.num (-1))) ∧
    (∃ r, collect_ext_status seq_no (FileRead.content (RawContent.json v)) =
        Except.ok (some r) ∧
       r.status = some EXTENSION_STATUS_ERROR ∧
       r.code = some ECode.pluginSettingsStatusInvalid) := by
  refine ⟨⟨{ initExtensionStatus seq_no with
      message := some (JValue.jstr "Failed to get status file"),
      code := some (ECode.num (-1)), status := some EXTENSION_STATUS_ERROR }, ?_, rfl, rfl⟩,
    ⟨{ initExtensionStatus seq_no with
      message := some (JValue.jstr "Malformed status file"),
      code := some (ECode.num (-1)), status := some EXTENSION_STATUS_ERROR }, ?_, rfl, rfl⟩,
    ⟨{ st with
      message := some (JValue.jstr "Malformed status file"),
      code := some ECode.pluginSettingsStatusInvalid,
      status := some EXTENSION_STATUS_ERROR }, ?_, rfl, rfl⟩⟩
  · simp [collect_ext_status, h]
  · simp [collect_ext_status, h]
  · simp [collect_ext_status, h, hp]

/-- Witness for C1 at sequence number 0 with the schema-violating status file
`[{}]` (valid JSON, first element lacks the required `status` key). -/
theorem C1_collect_ext_status_error_codes_witness :
    (0 : Int) ≠ -1 ∧
    parse_ext_status (initExtensionStatus 0) (JValue.jarr [JValue.jobj []]) =
      (initExtensionStatus 0, some PyExc.extensionError) ∧
    ((∃ r, collect_ext_status 0 FileRead.ioError = Except.ok (some r) ∧
       r.status = some EXTENSION_STATUS_ERROR ∧ r.code = some (ECode.num (-1))) ∧
     (∃ r, collect_ext_status 0 (FileRead.content RawContent.invalidJson) =
        Except.ok (some r) ∧
       r.status = some EXTENSION_STATUS_ERROR ∧ r.code = some (ECode.num (-1))) ∧
     (∃ r, collect_ext_status 0
          (FileRead.content (RawContent.json (JValue.jarr [JValue.jobj []]))) =
        Except.ok (some r) ∧
       r.status = some EXTENSION_STATUS_ERROR ∧
       r.code = some ECode.pluginSettingsStatusInvalid)) :=
  ⟨by decide, rfl,
   C1_collect_ext_status_error_codes 0 (by decide) (JValue.jarr [JValue.jobj []])
     (initExtensionStatus 0) rfl⟩

/-! ## C8: uninstall choreography. -/

/-- C8 counterexample: for an Enabled handler whose disable command fails,
`handle_uninstall` lets the `ExtensionError` propagate (the disable call sits
outside the try/except) and returns without removing the handler directory,
refuting the claim that the directory is removed in every case. -/
theorem C8_disable_failure_counterexample :
    handle_uninstall "Enabled" false true = ([UninstallEvent.launchDisable false], false) ∧
    UninstallEvent.removeHandlerDir ∉ (handle_uninstall "Enabled" false true).1 := by
  exact ⟨by decide, by decide⟩

/-- C8 as amended: for a handler whose state is Enabled the disable command
runs first; an `ExtensionError` from the uninstall command is swallowed and
reported only as a telemetry event, after which the handler directory is still
removed; the directory is removed before `handle_uninstall` returns in every
case except when the disable of an Enabled handler fails, in which case the
exception propagates and the directory is not removed. -/
theorem C8_handle_uninstall_behavior (state : String) (dOk uOk : Bool)
    (hni : state ≠ "NotInstalled") :
    (state = "Enabled" →
      (handle_uninstall state dOk uOk).1.head? = some (UninstallEvent.launchDisable dOk)) ∧
    (¬(state = "Enabled" ∧ dOk = false) → uOk = false →
      ∃ pre, (handle_uninstall state dOk uOk).1 =
          pre ++ [UninstallEvent.launchUninstall false, UninstallEvent.reportFailureEvent,
                  UninstallEvent.removeHandlerDir] ∧
        (handle_uninstall state dOk uOk).2 = true) ∧
    (¬(state = "Enabled" ∧ dOk = false) →
      (handle_uninstall state dOk uOk).2 = true ∧
      (handle_uninstall state dOk uOk).1.getLast? = some UninstallEvent.removeHandlerDir) ∧
    (state = "Enabled" → dOk = false →
      (handle_uninstall state dOk uOk).2 = false ∧
      UninstallEvent.removeHandlerDir ∉ (handle_uninstall state dOk uOk).1) := by
  refine ⟨?_, ?_, ?_, ?_⟩
  · intro he
    cases dOk <;> simp [handle_uninstall, hni, he]
  · intro hnd hu
    subst hu
    by_cases he : state = "Enabled"
    · have hd : dOk = true := by
        cases dOk
        · exact absurd ⟨he, rfl⟩ hnd
        · rfl
      subst hd
      exact ⟨[UninstallEvent.launchDisable true], by simp [handle_uninstall, hni, he],
        by simp [handle_uninstall, hni, he]⟩
    · refine ⟨[], ?_, ?_⟩ <;> simp [handle_uninstall, hni, he]
  · intro hnd
    by_cases he : state = "Enabled"
    · have hd : dOk = true := by
        cases dOk
        · exact absurd ⟨he, rfl⟩ hnd
        · rfl
      subst hd
      cases uOk <;> simp [handle_uninstall, hni, he]
    · cases uOk <;> simp [handle_uninstall, hni, he]
  · intro he hd
    subst hd
    simp [handle_uninstall, hni, he]

/-- Witness for C8 (amended) at an Enabled handler whose disable succeeds and
whose uninstall fails. -/
theorem C8_handle_uninstall_behavior_witness :
    ("Enabled" : String) ≠ "NotInstalled" ∧
    (handle_uninstall "Enabled" true false).2 = true ∧
    (handle_uninstall "Enabled" true false).1.getLast? = some UninstallEvent.removeHandlerDir :=
  ⟨by decide,
   ((C8_handle_uninstall_behavior "Enabled" true false (by decide)).2.2.1 (by simp)).1,
   ((C8_handle_uninstall_behavior "Enabled" true false (by decide)).2.2.1 (by simp)).2⟩

/-! ## C9: heartbeat liveness. -/

/-- C9: for a handler whose manifest has `reportHeartbeat=true` and whose
heartbeat file exists, a file older than 600 seconds (such as 601) makes
`collect_heartbeat` yield the fixed dict with status `Unresponsive` and code
`-1`, and that status replaces the handler's reported status; a file at most
600 seconds old (such as 599) surfaces the `status` field from the heartbeat
file's own JSON instead. -/
theorem C9_heartbeat_liveness (inp : HeartbeatInput)
    (hrep : inp.report_heartbeat = true) (hfile : inp.file_is_file = true) :
    (∀ age : Int, is_responsive age = true ↔ age ≤ 600) ∧
    (600 < inp.age_seconds →
      collect_heartbeat inp = Except.ok (some unresponsiveHeartbeat) ∧
      ∀ orig, report_heartbeat_status orig inp =
        Except.ok (some (JValue.jstr "Unresponsive"))) ∧
    (∀ (s : String) (more : List (String × JValue)) (restArr : List JValue),
      inp.age_seconds ≤ 600 →
      inp.read = FileRead.content (RawContent.json (JValue.jarr
        (JValue.jobj [("heartbeat", JValue.jobj (("status", JValue.jstr s) :: more))]
          :: restArr))) →
      collect_heartbeat inp =
        Except.ok (some (JValue.jobj (("status", JValue.jstr s) :: more))) ∧
      ∀ orig, report_heartbeat_status orig inp = Except.ok (some (JValue.jstr s))) := by
  refine ⟨?_, ?_, ?_⟩
  · intro age
    simp [is_responsive]
  · intro hage
    have hr : is_responsive inp.age_seconds = false := by
      simp only [is_responsive, decide_eq_false_iff_not]
      omega
    have hc : collect_heartbeat inp = Except.ok (some unresponsiveHeartbeat) := by
      simp [collect_heartbeat, hrep, hfile, hr]
    refine ⟨hc, fun orig => ?_⟩
    simp [report_heartbeat_status, hc, unresponsiveHeartbeat, pyGetOpt, List.lookup]
  · intro s more restArr hage hread
    have hr : is_responsive inp.age_seconds = true := by
      simp only [is_responsive, decide_eq_true_eq]
      omega
    have hc : collect_heartbeat inp =
        Except.ok (some (JValue.jobj (("status", JValue.jstr s) :: more))) := by
      simp [collect_heartbeat, hrep, hfile, hr, hread, pyIndexZero, pyIndexStr,
        List.lookup, Bind.bind, Except.bind]
    refine ⟨hc, fun orig => ?_⟩
    simp [report_heartbeat_status, hc, pyGetOpt, List.lookup]

/-- Witness for C9: a heartbeat 601 seconds old is reported `Unresponsive`;
one 599 seconds old surfaces its own status string. -/
theorem C9_heartbeat_liveness_witness :
    collect_heartbeat
      { report_heartbeat := true
        file_is_file := true
        age_seconds := 601
        read := FileRead.ioError } = Except.ok (some unresponsiveHeartbeat) ∧
    report_heartbeat_status none
      { report_heartbeat := true
        file_is_file := true
        age_seconds := 599
        read := FileRead.content (RawContent.json (JValue.jarr
          [JValue.jobj [("heartbeat", JValue.jobj [("status", JValue.jstr "healthy")])]])) } =
      Except.ok (some (JValue.jstr "healthy")) :=
  ⟨((C9_heartbeat_liveness
      { report_heartbeat := true
        file_is_file := true
        age_seconds := 601
        read := FileRead.ioError } rfl rfl).2.1 (by decide)).1,
   (((C9_heartbeat_liveness
      { report_heartbeat := true
        file_is_file := true
        age_seconds := 599
        read := FileRead.content (RawContent.json (JValue.jarr
          [JValue.jobj [("heartbeat", JValue.jobj [("status", JValue.jstr "healthy")])]])) }
      rfl rfl).2.2 "healthy" [] [] (by decide) rfl).2) none⟩

/-! ## C2 and C3: the update choreography. -/

/-- Every update command launched by the update sequence runs from the new
handler's directory exactly when the new version is strictly greater, and
always carries the new handler's version string with the `DISABLE_FAILED`
marker reflecting the old disable outcome. -/
theorem launchUpdate_characterization (inp : UpdateSeqInput) (cwd : String)
    (env : List (String × String))
    (hmem : UpdateEvent.launchUpdate cwd env ∈ (update_sequence inp).1) :
    cwd = get_base_dir inp.libDir
        (if version_gt inp.newH inp.oldH then inp.newH else inp.oldH) ∧
    env = updateCommandEnv (versionString inp.newH.version) (!inp.disableOk) := by
  obtain ⟨lib, oldH, newH, dOk, uOk, updOk, cont, uwi⟩ := inp
  by_cases hv : version_gt newH oldH = true <;>
    cases dOk <;> cases uOk <;> cases updOk <;> cases cont <;>
    simp only [update_sequence, handlerUpdate] at hmem <;>
    simp [hv] at hmem ⊢ <;>
    simp_all [updateCommandEnv]

/-- C2: when the selected (new) handler version is not greater than the
installed (old) one, the update command runs from the OLD handler's base
directory, and in both the upgrade and the downgrade case the phase
environment carries `VERSION` set to the NEW handler's version string, plus
`AZURE_GUEST_AGENT_DISABLE_FAILED=1` exactly when the old disable failed;
the P4 scenario (installed 1.2.0, requested 1.1.* over 1.1.0/1.2.0) picks
package 1.1.0 and runs the update in the 1.2.0 directory with
`VERSION=1.1.0`. -/
theorem C2_downgrade_update_env (inp : UpdateSeqInput) (cwd : String)
    (env : List (String × String))
    (hmem : UpdateEvent.launchUpdate cwd env ∈ (update_sequence inp).1) :
    (version_gt inp.newH inp.oldH = false → cwd = get_base_dir inp.libDir inp.oldH) ∧
    (version_gt inp.newH inp.oldH = true → cwd = get_base_dir inp.libDir inp.newH) ∧
    List.lookup "VERSION" env = some (versionString inp.newH.version) ∧
    List.lookup DISABLE_FAILED env = (if inp.disableOk then none else some "1") ∧
    decide_version [⟨[1, 1, 0], ["u1"]⟩, ⟨[1, 2, 0], ["u2"]⟩]
        ⟨[1, 1], true⟩ (some ⟨[1, 2, 0], false⟩) "enabled" =
      { pkg := some ⟨[1, 1, 0], ["u1"]⟩, handlerVersion := some ⟨[1, 1, 0], false⟩,
        is_upgrade := true } ∧
    (update_sequence
        { libDir := "/var/lib/waagent"
          oldH := ⟨"Foo", [1, 2, 0]⟩
          newH := ⟨"Foo", [1, 1, 0]⟩
          disableOk := true
          uninstallOk := true
          updateOk := true
          continueOnUpdateFailure := false
          updateWithInstall := true }).1 =
      [UpdateEvent.launchDisable ⟨"Foo", [1, 2, 0]⟩ true,
       UpdateEvent.copyStatusFiles ⟨"Foo", [1, 2, 0]⟩ ⟨"Foo", [1, 1, 0]⟩,
       UpdateEvent.launchUpdate "/var/lib/waagent/Foo-1.2.0" [("VERSION", "1.1.0")],
       UpdateEvent.launchUninstall ⟨"Foo", [1, 2, 0]⟩ true,
       UpdateEvent.removeHandlerDir ⟨"Foo", [1, 2, 0]⟩,
       UpdateEvent.launchInstall ⟨"Foo", [1, 1, 0]⟩ []] := by
  obtain ⟨hcwd, henv⟩ := launchUpdate_characterization inp cwd env hmem
  subst henv
  refine ⟨?_, ?_, ?_, ?_, by decide, by decide⟩
  · intro hlt
    rw [hcwd, hlt]
    simp
  · intro hgt
    rw [hcwd, hgt]
    simp
  · simp [updateCommandEnv, List.lookup]
  · cases hd : inp.disableOk <;>
      simp [updateCommandEnv, List.lookup, DISABLE_FAILED]

/-- Witness for C2 at the P4 downgrade scenario: the update command of the
1.2.0 → 1.1.0 downgrade runs in the old 1.2.0 directory with
`VERSION=1.1.0`. -/
theorem C2_downgrade_update_env_witness :
    UpdateEvent.launchUpdate "/var/lib/waagent/Foo-1.2.0" [("VERSION", "1.1.0")] ∈
      (update_sequence
        { libDir := "/var/lib/waagent"
          oldH := ⟨"Foo", [1, 2, 0]⟩
          newH := ⟨"Foo", [1, 1, 0]⟩
          disableOk := true
          uninstallOk := true
          updateOk := true
          continueOnUpdateFailure := false
          updateWithInstall := true }).1 ∧
    (version_gt (⟨"Foo", [1, 1, 0]⟩ : HandlerId) (⟨"Foo", [1, 2, 0]⟩ : HandlerId) = false →
      "/var/lib/waagent/Foo-1.2.0" =
        get_base_dir "/var/lib/waagent" (⟨"Foo", [1, 2, 0]⟩ : HandlerId)) :=
  ⟨by decide,
   (C2_downgrade_update_env
      { libDir := "/var/lib/waagent"
        oldH := ⟨"Foo", [1, 2, 0]⟩
        newH := ⟨"Foo", [1, 1, 0]⟩
        disableOk := true
        uninstallOk := true
        updateOk := true
        continueOnUpdateFailure := false
        updateWithInstall := true }
      "/var/lib/waagent/Foo-1.2.0" [("VERSION", "1.1.0")] (by decide)).1⟩

/-- C3: during the update sequence a failing old-handler command (disable or
uninstall) is fatal, raised as `ExtensionUpdateError`, exactly when the NEW
handler's manifest has `continueOnUpdateFailure=false`; the dispatcher writes
an `ExtensionUpdateError` to handler status without re-reporting a telemetry
event (unlike a plain `ExtensionError`); with `continueOnUpdateFailure=true`
the sequence continues, carrying the failure only in the
disable_failed/uninstall_failed flags. -/
theorem C3_continue_on_update_failure (inp : UpdateSeqInput) (g : Bool) (c : ECode) :
    ((update_sequence inp).2 = UpdateOutcome.extensionUpdateError ↔
      inp.continueOnUpdateFailure = false ∧
        (inp.disableOk = false ∨ (inp.updateOk = true ∧ inp.uninstallOk = false))) ∧
    (inp.disableOk = false → inp.continueOnUpdateFailure = false →
      (update_sequence inp).1 =
        [UpdateEvent.launchDisable inp.oldH false, UpdateEvent.reportOldFailure inp.oldH] ∧
      (update_sequence inp).2 = UpdateOutcome.extensionUpdateError) ∧
    (inp.disableOk = false → inp.continueOnUpdateFailure = true →
      UpdateEvent.launchUpdate
        (get_base_dir inp.libDir (if version_gt inp.newH inp.oldH then inp.newH else inp.oldH))
        (updateCommandEnv (versionString inp.newH.version) true) ∈ (update_sequence inp).1) ∧
    (inp.continueOnUpdateFailure = true → inp.updateOk = true → inp.uninstallOk = false →
      (update_sequence inp).2 = UpdateOutcome.ok true) ∧
    handle_ext_handler_dispatch g (RaisedError.extensionUpdateError c) =
      { statusCode := c, statusWritten := true, telemetryReported := false } ∧
    handle_ext_handler_dispatch g (RaisedError.extensionError c) =
      { statusCode := c, statusWritten := true, telemetryReported := true } := by
  obtain ⟨lib, oldH, newH, dOk, uOk, updOk, cont, uwi⟩ := inp
  refine ⟨?_, ?_, ?_, ?_, rfl, rfl⟩ <;>
    by_cases hv : version_gt newH oldH = true <;>
    cases dOk <;> cases uOk <;> cases updOk <;> cases cont <;>
    simp [update_sequence, handlerUpdate, updateCommandEnv, hv]

/-- Witness for C3: with `continueOnUpdateFailure=false` a disable failure
aborts the sequence as `ExtensionUpdateError` and the dispatcher suppresses
telemetry for it. -/
theorem C3_continue_on_update_failure_witness :
    (update_sequence
        { libDir := "/var/lib/waagent"
          oldH := ⟨"Foo", [1, 0, 0]⟩
          newH := ⟨"Foo", [1, 1, 0]⟩
          disableOk := false
          uninstallOk := true
          updateOk := true
          continueOnUpdateFailure := false
          updateWithInstall := true }).2 = UpdateOutcome.extensionUpdateError ∧
    (handle_ext_handler_dispatch false
        (RaisedError.extensionUpdateError (ECode.num (-1)))).telemetryReported = false :=
  ⟨((C3_continue_on_update_failure
      { libDir := "/var/lib/waagent"
        oldH := ⟨"Foo", [1, 0, 0]⟩
        newH := ⟨"Foo", [1, 1, 0]⟩
        disableOk := false
        uninstallOk := true
        updateOk := true
        continueOnUpdateFailure := false
        updateWithInstall := true } false (ECode.num (-1))).2.1 rfl rfl).2,
   by rfl⟩

/-! ## C7: download retry, caching and cleanup. -/

/-- A consecutive event pair inside the right part of an append is a
consecutive pair of the whole. -/
theorem pairAt_append_right {α : Type} (xs ys : List α) (a b : α)
    (h : ∃ p q, ys = p ++ [a, b] ++ q) : ∃ p q, xs ++ ys = p ++ [a, b] ++ q := by
  obtain ⟨p, q, rfl⟩ := h
  exact ⟨xs ++ p, q, by simp⟩

/-- A consecutive event pair inside the left part of an append is a
consecutive pair of the whole. -/
theorem pairAt_append_left {α : Type} (xs ys : List α) (a b : α)
    (h : ∃ p q, xs = p ++ [a, b] ++ q) : ∃ p q, xs ++ ys = p ++ [a, b] ++ q := by
  obtain ⟨p, q, rfl⟩ := h
  exact ⟨p, q ++ ys, by simp⟩

/-- Every failed download attempt inside one retry round is immediately
followed by the removal of the partial destination file. -/
theorem tryUris_download_delete (inp : DownloadInput) (r : Nat) (us : List String)
    (rnd : Nat) (u : String)
    (hmem : DlEvent.attemptDownload rnd u false ∈ (tryUris inp r us).2) :
    ∃ p q, (tryUris inp r us).2 =
      p ++ [DlEvent.attemptDownload rnd u false, DlEvent.removePartialDest] ++ q := by
  induction us with
  | nil => simp [tryUris] at hmem
  | cons v vs ih =>
    by_cases hd : inp.dlOk r v = false
    · have ht : (tryUris inp r (v :: vs)).2 =
          DlEvent.attemptDownload r v false :: DlEvent.removePartialDest ::
            (tryUris inp r vs).2 := by
        simp [tryUris, hd]
      rw [ht] at hmem ⊢
      rcases List.mem_cons.mp hmem with he | hmem2
      · obtain ⟨h1, h2, -⟩ := DlEvent.attemptDownload.inj he
        exact ⟨[], (tryUris inp r vs).2, by simp [h1, h2]⟩
      · rcases List.mem_cons.mp hmem2 with he | hmem3
        · simp at he
        · exact pairAt_append_right [DlEvent.attemptDownload r v false,
            DlEvent.removePartialDest] _ _ _ (ih hmem3)
    · rw [Bool.not_eq_false] at hd
      by_cases hz : inp.uzOk r v = true
      · have ht : (tryUris inp r (v :: vs)).2 =
            [DlEvent.attemptDownload r v true, DlEvent.attemptUnzip r v true] := by
          simp [tryUris, hd, hz]
        rw [ht] at hmem
        simp at hmem
      · rw [Bool.not_eq_true] at hz
        have ht : (tryUris inp r (v :: vs)).2 =
            DlEvent.attemptDownload r v true :: DlEvent.attemptUnzip r v false ::
              DlEvent.removeZipAndBaseDir :: (tryUris inp r vs).2 := by
          simp [tryUris, hd, hz]
        rw [ht] at hmem ⊢
        rcases List.mem_cons.mp hmem with he | hmem2
        · simp at he
        rcases List.mem_cons.mp hmem2 with he | hmem3
        · simp at he
        rcases List.mem_cons.mp hmem3 with he | hmem4
        · simp at he
        exact pairAt_append_right [DlEvent.attemptDownload r v true,
          DlEvent.attemptUnzip r v false, DlEvent.removeZipAndBaseDir] _ _ _ (ih hmem4)

/-- Every failed unzip inside one retry round is immediately followed by the
removal of the zip and the partially extracted base directory. -/
theorem tryUris_unzip_delete (inp : DownloadInput) (r : Nat) (us : List String)
    (rnd : Nat) (u : String)
    (hmem : DlEvent.attemptUnzip rnd u false ∈ (tryUris inp r us).2) :
    ∃ p q, (tryUris inp r us).2 =
      p ++ [DlEvent.attemptUnzip rnd u false, DlEvent.removeZipAndBaseDir] ++ q := by
  induction us with
  | nil => simp [tryUris] at hmem
  | cons v vs ih =>
    by_cases hd : inp.dlOk r v = false
    · have ht : (tryUris inp r (v :: vs)).2 =
          DlEvent.attemptDownload r v false :: DlEvent.removePartialDest ::
            (tryUris inp r vs).2 := by
        simp [tryUris, hd]
      rw [ht] at hmem ⊢
      rcases List.mem_cons.mp hmem with he | hmem2
      · simp at he
      rcases List.mem_cons.mp hmem2 with he | hmem3
      · simp at he
      exact pairAt_append_right [DlEvent.attemptDownload r v false,
        DlEvent.removePartialDest] _ _ _ (ih hmem3)
    · rw [Bool.not_eq_false] at hd
      by_cases hz : inp.uzOk r v = true
      · have ht : (tryUris inp r (v :: vs)).2 =
            [DlEvent.attemptDownload r v true, DlEvent.attemptUnzip r v true] := by
          simp [tryUris, hd, hz]
        rw [ht] at hmem
        simp at hmem
      · rw [Bool.not_eq_true] at hz
        have ht : (tryUris inp r (v :: vs)).2 =
            DlEvent.attemptDownload r v true :: DlEvent.attemptUnzip r v false ::
              DlEvent.removeZipAndBaseDir :: (tryUris inp r vs).2 := by
          simp [tryUris, hd, hz]
        rw [ht] at hmem ⊢
        rcases List.mem_cons.mp hmem with he | hmem2
        · simp at he
        rcases List.mem_cons.mp hmem2 with he | hmem3
        · obtain ⟨h1, h2, -⟩ := DlEvent.attemptUnzip.inj he
          exact ⟨[DlEvent.attemptDownload r v true], (tryUris inp r vs).2, by simp [h1, h2]⟩
        rcases List.mem_cons.mp hmem3 with he | hmem4
        · simp at he
        exact pairAt_append_right [DlEvent.attemptDownload r v true,
          DlEvent.attemptUnzip r v false, DlEvent.removeZipAndBaseDir] _ _ _ (ih hmem4)

/-- When no URI of the round can be downloaded and unzipped, the round
fails. -/
theorem tryUris_all_fail (inp : DownloadInput) (r : Nat) (us : List String)
    (hf : ∀ u ∈ us, ¬(inp.dlOk r u = true ∧ inp.uzOk r u = true)) :
    (tryUris inp r us).1 = false := by
  induction us with
  | nil => rfl
  | cons v vs ih =>
    have ihv := ih (fun u hu => hf u (List.mem_cons_of_mem v hu))
    by_cases hd : inp.dlOk r v = false
    · simp [tryUris, hd, ihv]
    · rw [Bool.not_eq_false] at hd
      have hz : inp.uzOk r v = false := by
        cases hzz : inp.uzOk r v
        · rfl
        · exact absurd ⟨hd, hzz⟩ (hf v (List.mem_cons_self v vs))
      simp [tryUris, hd, hz, ihv]

/-- One retry round never sleeps: the 60-second sleeps sit between rounds. -/
theorem tryUris_no_sleep (inp : DownloadInput) (r : Nat) (us : List String) :
    DlEvent.sleep60 ∉ (tryUris inp r us).2 := by
  induction us with
  | nil => simp [tryUris]
  | cons v vs ih =>
    by_cases hd : inp.dlOk r v = false
    · simp [tryUris, hd, ih]
    · rw [Bool.not_eq_false] at hd
      by_cases hz : inp.uzOk r v = true
      · simp [tryUris, hd, hz]
      · rw [Bool.not_eq_true] at hz
        simp [tryUris, hd, hz, ih]

/-- When every URI of the round fails, every URI of the round is attempted. -/
theorem tryUris_attempts (inp : DownloadInput) (r : Nat) (us : List String)
    (hf : ∀ u ∈ us, ¬(inp.dlOk r u = true ∧ inp.uzOk r u = true)) :
    ∀ u ∈ us, DlEvent.attemptDownload r u (inp.dlOk r u) ∈ (tryUris inp r us).2 := by
  induction us with
  | nil => simp
  | cons v vs ih =>
    intro u hu
    have ihv := ih (fun w hw => hf w (List.mem_cons_of_mem v hw))
    by_cases hd : inp.dlOk r v = false
    · have ht : (tryUris inp r (v :: vs)).2 =
          DlEvent.attemptDownload r v false :: DlEvent.removePartialDest ::
            (tryUris inp r vs).2 := by
        simp [tryUris, hd]
      rw [ht]
      rcases List.mem_cons.mp hu with rfl | hu2
      · rw [hd]
        exact List.mem_cons_self _ _
      · exact List.mem_cons_of_mem _ (List.mem_cons_of_mem _ (ihv u hu2))
    · rw [Bool.not_eq_false] at hd
      have hz : inp.uzOk r v = false := by
        cases hzz : inp.uzOk r v
        · rfl
        · exact absurd ⟨hd, hzz⟩ (hf v (List.mem_cons_self v vs))
      have ht : (tryUris inp r (v :: vs)).2 =
          DlEvent.attemptDownload r v true :: DlEvent.attemptUnzip r v false ::
            DlEvent.removeZipAndBaseDir :: (tryUris inp r vs).2 := by
        simp [tryUris, hd, hz]
      rw [ht]
      rcases List.mem_cons.mp hu with rfl | hu2
      · rw [hd]
        exact List.mem_cons_self _ _
      · exact List.mem_cons_of_mem _ (List.mem_cons_of_mem _ (List.mem_cons_of_mem _
          (ihv u hu2)))

/-- With all URIs failing in every round, `n` rounds all run and fail: the
result is a failure, there are exactly `n` inter-round sleeps, and every URI
of every round's shuffle is attempted. -/
theorem downloadRounds_all_fail (inp : DownloadInput) (r0 n : Nat)
    (hf : ∀ r u, ¬(inp.dlOk r u = true ∧ inp.uzOk r u = true)) :
    (downloadRounds inp r0 n).1 = false ∧
    (downloadRounds inp r0 n).2.count DlEvent.sleep60 = n ∧
    (∀ j < n, ∀ u ∈ inp.shuffle (r0 + j),
      DlEvent.attemptDownload (r0 + j) u (inp.dlOk (r0 + j) u) ∈
        (downloadRounds inp r0 n).2) := by
  induction n generalizing r0 with
  | zero =>
    refine ⟨rfl, rfl, ?_⟩
    intro j hj
    omega
  | succ n ih =>
    have hfr : (tryUris inp r0 (inp.shuffle r0)).1 = false :=
      tryUris_all_fail inp r0 _ (fun u _ => hf r0 u)
    have ht : downloadRounds inp r0 (n + 1) =
        ((downloadRounds inp (r0 + 1) n).1,
         (tryUris inp r0 (inp.shuffle r0)).2 ++ [DlEvent.sleep60] ++
           (downloadRounds inp (r0 + 1) n).2) := by
      simp [downloadRounds, hfr]
    obtain ⟨ih1, ih2, ih3⟩ := ih (r0 + 1)
    refine ⟨by rw [ht]; exact ih1, ?_, ?_⟩
    · rw [ht]
      simp only [List.count_append]
      rw [List.count_eq_zero.mpr (tryUris_no_sleep inp r0 (inp.shuffle r0)), ih2]
      simp
      omega
    · intro j hj u hu
      rw [ht]
      cases j with
      | zero =>
        simp only [Nat.add_zero] at hu ⊢
        have hm := tryUris_attempts inp r0 _ (fun w _ => hf r0 w) u hu
        exact List.mem_append.mpr (Or.inl (List.mem_append.mpr (Or.inl hm)))
      | succ j' =>
        have he : r0 + (j' + 1) = (r0 + 1) + j' := by omega
        rw [he] at hu ⊢
        have hm := ih3 j' (by omega) u hu
        exact List.mem_append.mpr (Or.inr hm)

/-- Lifts the failed-download deletion pair through the retry rounds. -/
theorem downloadRounds_download_delete (inp : DownloadInput) (r0 n rnd : Nat) (u : String)
    (hmem : DlEvent.attemptDownload rnd u false ∈ (downloadRounds inp r0 n).2) :
    ∃ p q, (downloadRounds inp r0 n).2 =
      p ++ [DlEvent.attemptDownload rnd u false, DlEvent.removePartialDest] ++ q := by
  induction n generalizing r0 with
  | zero => simp [downloadRounds] at hmem
  | succ n ih =>
    by_cases hr : (tryUris inp r0 (inp.shuffle r0)).1 = true
    · have ht : (downloadRounds inp r0 (n + 1)).2 =
          (tryUris inp r0 (inp.shuffle r0)).2 := by
        simp [downloadRounds, hr]
      rw [ht] at hmem ⊢
      exact tryUris_download_delete inp r0 _ rnd u hmem
    · rw [Bool.not_eq_true] at hr
      have ht : (downloadRounds inp r0 (n + 1)).2 =
          (tryUris inp r0 (inp.shuffle r0)).2 ++ [DlEvent.sleep60] ++
            (downloadRounds inp (r0 + 1) n).2 := by
        simp [downloadRounds, hr]
      rw [ht] at hmem ⊢
      rcases List.mem_append.mp hmem with h1 | h2
      · rcases List.mem_append.mp h1 with ha | hs
        · exact pairAt_append_left _ _ _ _ (pairAt_append_left _ _ _ _
            (tryUris_download_delete inp r0 _ rnd u ha))
        · simp at hs
      · exact pairAt_append_right _ _ _ _ (ih (r0 + 1) h2)

/-- Lifts the failed-unzip deletion pair through the retry rounds. -/
theorem downloadRounds_unzip_delete (inp : DownloadInput) (r0 n rnd : Nat) (u : String)
    (hmem : DlEvent.attemptUnzip rnd u false ∈ (downloadRounds inp r0 n).2) :
    ∃ p q, (downloadRounds inp r0 n).2 =
      p ++ [DlEvent.attemptUnzip rnd u false, DlEvent.removeZipAndBaseDir] ++ q := by
  induction n generalizing r0 with
  | zero => simp [downloadRounds] at hmem
  | succ n ih =>
    by_cases hr : (tryUris inp r0 (inp.shuffle r0)).1 = true
    · have ht : (downloadRounds inp r0 (n + 1)).2 =
          (tryUris inp r0 (inp.shuffle r0)).2 := by
        simp [downloadRounds, hr]
      rw [ht] at hmem ⊢
      exact tryUris_unzip_delete inp r0 _ rnd u hmem
    · rw [Bool.not_eq_true] at hr
      have ht : (downloadRounds inp r0 (n + 1)).2 =
          (tryUris inp r0 (inp.shuffle r0)).2 ++ [DlEvent.sleep60] ++
            (downloadRounds inp (r0 + 1) n).2 := by
        simp [downloadRounds, hr]
      rw [ht] at hmem ⊢
      rcases List.mem_append.mp hmem with h1 | h2
      · rcases List.mem_append.mp h1 with ha | hs
        · exact pairAt_append_left _ _ _ _ (pairAt_append_left _ _ _ _
            (tryUris_unzip_delete inp r0 _ rnd u ha))
        · simp at hs
      · exact pairAt_append_right _ _ _ _ (ih (r0 + 1) h2)

/-- C7: if the destination zip already exists and unzips successfully it is a
cached hit with no network attempt; otherwise at most
`NUMBER_OF_DOWNLOAD_RETRIES` (5) rounds run, each shuffling the URI list and
trying each URI in turn, stopping at the first download+unzip success, with a
60-second sleep after each failed round; exhausting all rounds yields the
`PluginManifestDownloadError` download error; a failed download is immediately
followed by deletion of the partial destination, and a failed unzip by
deletion of the zip and the partially extracted base directory. -/
theorem C7_download_behavior (inp : DownloadInput) (hne : inp.uris ≠ []) :
    (inp.destExists = true → inp.cachedUnzipOk = true →
      download inp = (DownloadOutcome.ok, [DlEvent.unzipCached true]) ∧
      ∀ r u b, DlEvent.attemptDownload r u b ∉ (download inp).2) ∧
    (inp.destExists = false →
      (∀ r u, ¬(inp.dlOk r u = true ∧ inp.uzOk r u = true)) →
      (download inp).1 = DownloadOutcome.manifestDownloadError ∧
      (download inp).2.count DlEvent.sleep60 = NUMBER_OF_DOWNLOAD_RETRIES ∧
      ∀ j < NUMBER_OF_DOWNLOAD_RETRIES, ∀ u ∈ inp.shuffle j,
        DlEvent.attemptDownload j u (inp.dlOk j u) ∈ (download inp).2) ∧
    (inp.destExists = false → ∀ u us', inp.shuffle 0 = u :: us' →
      inp.dlOk 0 u = true → inp.uzOk 0 u = true →
      download inp = (DownloadOutcome.ok,
        [DlEvent.attemptDownload 0 u true, DlEvent.attemptUnzip 0 u true])) ∧
    (∀ rnd u, DlEvent.attemptDownload rnd u false ∈ (download inp).2 →
      ∃ p q, (download inp).2 =
        p ++ [DlEvent.attemptDownload rnd u false, DlEvent.removePartialDest] ++ q) ∧
    (∀ rnd u, DlEvent.attemptUnzip rnd u false ∈ (download inp).2 →
      ∃ p q, (download inp).2 =
        p ++ [DlEvent.attemptUnzip rnd u false, DlEvent.removeZipAndBaseDir] ++ q) := by
  have h0 : ¬inp.uris.length = 0 := by simpa using hne
  refine ⟨?_, ?_, ?_, ?_, ?_⟩
  · intro hd hc
    have ht : download inp = (DownloadOutcome.ok, [DlEvent.unzipCached true]) := by
      simp [download, h0, hd, hc]
    refine ⟨ht, ?_⟩
    rw [ht]
    intro r u b
    simp
  · intro hd hf
    obtain ⟨hr1, hr2, hr3⟩ := downloadRounds_all_fail inp 0 NUMBER_OF_DOWNLOAD_RETRIES hf
    have ht : download inp = (DownloadOutcome.manifestDownloadError,
        (downloadRounds inp 0 NUMBER_OF_DOWNLOAD_RETRIES).2) := by
      simp [download, h0, hd, hr1]
    rw [ht]
    refine ⟨rfl, hr2, ?_⟩
    intro j hj u hu
    have := hr3 j hj u (by simpa using hu)
    simpa using this
  · intro hd u us' hsh hdl huz
    have ht1 : tryUris inp 0 (inp.shuffle 0) =
        (true, [DlEvent.attemptDownload 0 u true, DlEvent.attemptUnzip 0 u true]) := by
      rw [hsh]
      simp [tryUris, hdl, huz]
    have ht2 : downloadRounds inp 0 NUMBER_OF_DOWNLOAD_RETRIES =
        (true, [DlEvent.attemptDownload 0 u true, DlEvent.attemptUnzip 0 u true]) := by
      simp [NUMBER_OF_DOWNLOAD_RETRIES, downloadRounds, ht1]
    simp [download, h0, hd, ht2]
  · intro rnd u hmem
    cases hd : inp.destExists with
    | false =>
      have ht : (download inp).2 = (downloadRounds inp 0 NUMBER_OF_DOWNLOAD_RETRIES).2 := by
        simp [download, h0, hd]
      rw [ht] at hmem ⊢
      exact downloadRounds_download_delete inp 0 _ rnd u hmem
    | true =>
      cases hc : inp.cachedUnzipOk with
      | true =>
        have ht : (download inp).2 = [DlEvent.unzipCached true] := by
          simp [download, h0, hd, hc]
        rw [ht] at hmem
        simp at hmem
      | false =>
        have ht : (download inp).2 = DlEvent.unzipCached false ::
            DlEvent.removeZipAndBaseDir ::
            (downloadRounds inp 0 NUMBER_OF_DOWNLOAD_RETRIES).2 := by
          simp [download, h0, hd, hc]
        rw [ht] at hmem ⊢
        rcases List.mem_cons.mp hmem with he | hmem2
        · simp at he
        rcases List.mem_cons.mp hmem2 with he | hmem3
        · simp at he
        exact pairAt_append_right [DlEvent.unzipCached false, DlEvent.removeZipAndBaseDir]
          _ _ _ (downloadRounds_download_delete inp 0 _ rnd u hmem3)
  · intro rnd u hmem
    cases hd : inp.destExists with
    | false =>
      have ht : (download inp).2 = (downloadRounds inp 0 NUMBER_OF_DOWNLOAD_RETRIES).2 := by
        simp [download, h0, hd]
      rw [ht] at hmem ⊢
      exact downloadRounds_unzip_delete inp 0 _ rnd u hmem
    | true =>
      cases hc : inp.cachedUnzipOk with
      | true =>
        have ht : (download inp).2 = [DlEvent.unzipCached true] := by
          simp [download, h0, hd, hc]
        rw [ht] at hmem
        simp at hmem
      | false =>
        have ht : (download inp).2 = DlEvent.unzipCached false ::
            DlEvent.removeZipAndBaseDir ::
            (downloadRounds inp 0 NUMBER_OF_DOWNLOAD_RETRIES).2 := by
          simp [download, h0, hd, hc]
        rw [ht] at hmem ⊢
        rcases List.mem_cons.mp hmem with he | hmem2
        · simp at he
        rcases List.mem_cons.mp hmem2 with he | hmem3
        · simp at he
        exact pairAt_append_right [DlEvent.unzipCached false, DlEvent.removeZipAndBaseDir]
          _ _ _ (downloadRounds_unzip_delete inp 0 _ rnd u hmem3)

/-- Witness for C7: one URI that always fails to download exhausts all 5
rounds with 5 sleeps and the `PluginManifestDownloadError` outcome. -/
theorem C7_download_behavior_witness :
    ((({ uris := ["http://u"]
         destExists := false
         cachedUnzipOk := false
         shuffle := fun _ => ["http://u"]
         dlOk := fun _ _ => false
         uzOk := fun _ _ => false } : DownloadInput).uris ≠ []) ∧
     (download
        { uris := ["http://u"]
          destExists := false
          cachedUnzipOk := false
          shuffle := fun _ => ["http://u"]
          dlOk := fun _ _ => false
          uzOk := fun _ _ => false }).1 = DownloadOutcome.manifestDownloadError ∧
     (download
        { uris := ["http://u"]
          destExists := false
          cachedUnzipOk := false
          shuffle := fun _ => ["http://u"]
          dlOk := fun _ _ => false
          uzOk := fun _ _ => false }).2.count DlEvent.sleep60 = NUMBER_OF_DOWNLOAD_RETRIES) :=
  ⟨by simp,
   ((C7_download_behavior _ (by simp)).2.1 rfl (fun r u => by simp)).1,
   ((C7_download_behavior _ (by simp)).2.1 rfl (fun r u => by simp)).2.1⟩

/-! ## C4: dependency-ordered dispatch with gating. -/

instance : IsTotal GoalHandler ghLe := ⟨fun a b => Int.le_total a.sortKey b.sortKey⟩

instance : IsTrans GoalHandler ghLe := ⟨fun _ _ _ hab hbc => le_trans hab hbc⟩

/-- Every handler's sort key is bounded by the fold that computes
`max_dep_level`. -/
theorem foldl_max_le (t : List GoalHandler) : ∀ acc : Int,
    acc ≤ t.foldl (fun a y => max a y.sortKey) acc ∧
    ∀ x ∈ t, x.sortKey ≤ t.foldl (fun a y => max a y.sortKey) acc := by
  induction t with
  | nil =>
    intro acc
    exact ⟨le_refl _, by simp⟩
  | cons y ys ih =>
    intro acc
    obtain ⟨h1, h2⟩ := ih (max acc y.sortKey)
    refine ⟨le_trans (le_max_left _ _) h1, ?_⟩
    intro x hx
    rcases List.mem_cons.mp hx with rfl | hx2
    · exact le_trans (le_max_right _ _) h1
    · exact h2 x hx2

/-- `maxSortKey` is an upper bound of the sort keys. -/
theorem le_maxSortKey (hs : List GoalHandler) : ∀ h ∈ hs, h.sortKey ≤ maxSortKey hs := by
  cases hs with
  | nil => simp
  | cons g gs =>
    intro h hh
    rcases List.mem_cons.mp hh with rfl | hh2
    · exact (foldl_max_le gs h.sortKey).1
    · exact (foldl_max_le gs g.sortKey).2 h hh2

/-- Only handlers whose level is in `[0, max_dep_level)` are ever waited
on. -/
theorem processHandlers_waited_gated (m : Int) (hs : List GoalHandler)
    (h : GoalHandler) (b : Bool)
    (hmem : OrchEvent.waited h b ∈ processHandlers m hs) :
    0 ≤ h.sortKey ∧ h.sortKey < m := by
  induction hs with
  | nil => simp [processHandlers] at hmem
  | cons g gs ih =>
    by_cases hg : 0 ≤ g.sortKey ∧ g.sortKey < m
    · by_cases hw : g.waitOk = true
      · have ht : processHandlers m (g :: gs) = OrchEvent.handled g ::
            OrchEvent.waited g true :: processHandlers m gs := by
          simp [processHandlers, hg, hw]
        rw [ht] at hmem
        rcases List.mem_cons.mp hmem with he | hmem2
        · simp at he
        rcases List.mem_cons.mp hmem2 with he | hmem3
        · obtain ⟨h1, -⟩ := OrchEvent.waited.inj he
          rw [h1]
          exact hg
        · exact ih hmem3
      · rw [Bool.not_eq_true] at hw
        have ht : processHandlers m (g :: gs) =
            [OrchEvent.handled g, OrchEvent.waited g false] := by
          simp [processHandlers, hg, hw]
        rw [ht] at hmem
        rcases List.mem_cons.mp hmem with he | hmem2
        · simp at he
        rcases List.mem_cons.mp hmem2 with he | hmem3
        · obtain ⟨h1, -⟩ := OrchEvent.waited.inj he
          rw [h1]
          exact hg
        · simp at hmem3
    · have ht : processHandlers m (g :: gs) =
          OrchEvent.handled g :: processHandlers m gs := by
        simp [processHandlers, hg]
      rw [ht] at hmem
      rcases List.mem_cons.mp hmem with he | hmem2
      · simp at he
      · exact ih hmem2

/-- After dispatching a gated handler the next trace event is the wait on that
same handler. -/
theorem processHandlers_wait_follows (m : Int) (hs : List GoalHandler) :
    ∀ i h, (processHandlers m hs)[i]? = some (OrchEvent.handled h) →
      0 ≤ h.sortKey ∧ h.sortKey < m →
      (processHandlers m hs)[i + 1]? = some (OrchEvent.waited h h.waitOk) := by
  induction hs with
  | nil =>
    intro i h hi _
    simp [processHandlers] at hi
  | cons g gs ih =>
    intro i h hi hg
    by_cases hgg : 0 ≤ g.sortKey ∧ g.sortKey < m
    · by_cases hw : g.waitOk = true
      · have ht : processHandlers m (g :: gs) = OrchEvent.handled g ::
            OrchEvent.waited g true :: processHandlers m gs := by
          simp [processHandlers, hgg, hw]
        rw [ht] at hi ⊢
        match i with
        | 0 =>
          have hge : g = h := by simpa using hi
          subst hge
          simp [hw]
        | 1 => simp at hi
        | (j + 2) =>
          have := ih j h (by simpa using hi) hg
          simpa using this
      · rw [Bool.not_eq_true] at hw
        have ht : processHandlers m (g :: gs) =
            [OrchEvent.handled g, OrchEvent.waited g false] := by
          simp [processHandlers, hgg, hw]
        rw [ht] at hi ⊢
        match i with
        | 0 =>
          have hge : g = h := by simpa using hi
          subst hge
          simp [hw]
        | 1 => simp at hi
        | (j + 2) => simp at hi
    · have ht : processHandlers m (g :: gs) =
          OrchEvent.handled g :: processHandlers m gs := by
        simp [processHandlers, hgg]
      rw [ht] at hi ⊢
      match i with
      | 0 =>
        have hge : g = h := by simpa using hi
        subst hge
        exact absurd hg hgg
      | (j + 1) =>
        have := ih j h (by simpa using hi) hg
        simpa using this

/-- A failed wait is the last event of the pass: nothing is dispatched after
it. -/
theorem processHandlers_abort (m : Int) (hs : List GoalHandler) :
    ∀ i h, (processHandlers m hs)[i]? = some (OrchEvent.waited h false) →
      (processHandlers m hs)[i + 1]? = none := by
  induction hs with
  | nil =>
    intro i h hi
    simp [processHandlers] at hi
  | cons g gs ih =>
    intro i h hi
    by_cases hgg : 0 ≤ g.sortKey ∧ g.sortKey < m
    · by_cases hw : g.waitOk = true
      · have ht : processHandlers m (g :: gs) = OrchEvent.handled g ::
            OrchEvent.waited g true :: processHandlers m gs := by
          simp [processHandlers, hgg, hw]
        rw [ht] at hi ⊢
        match i with
        | 0 => simp at hi
        | 1 => simp at hi
        | (j + 2) =>
          have := ih j h (by simpa using hi)
          simpa using this
      · rw [Bool.not_eq_true] at hw
        have ht : processHandlers m (g :: gs) =
            [OrchEvent.handled g, OrchEvent.waited g false] := by
          simp [processHandlers, hgg, hw]
        rw [ht] at hi ⊢
        match i with
        | 0 => simp at hi
        | 1 => rfl
        | (j + 2) => simp at hi
    · have ht : processHandlers m (g :: gs) =
          OrchEvent.handled g :: processHandlers m gs := by
        simp [processHandlers, hgg]
      rw [ht] at hi ⊢
      match i with
      | 0 => simp at hi
      | (j + 1) =>
        have := ih j h (by simpa using hi)
        simpa using this

/-- C4: the pass runs over the handlers sorted ascending by sort key, with
`max_dep_level` the maximum sort key; every waited-on handler has
`0 ≤ sortKey < max_dep_level` (so handlers at the top level or with a
negative sort key are never gated after themselves); a gated handler's
dispatch is immediately followed by the wait on it; a failed or timed-out
wait ends the pass with no further dispatch; and in the P2 scenario with sort
keys 0, 1, 2 where the level-0 handler fails its wait, the handlers at levels
1 and 2 are not dispatched. -/
theorem C4_dependency_gating (hs : List GoalHandler) :
    (List.Sorted ghLe (List.insertionSort ghLe hs) ∧
      (List.insertionSort ghLe hs).Perm hs) ∧
    (∀ h ∈ hs, h.sortKey ≤ maxSortKey hs) ∧
    (∀ h b, OrchEvent.waited h b ∈ handle_ext_handlers hs →
      0 ≤ h.sortKey ∧ h.sortKey < maxSortKey hs) ∧
    (∀ i h, (handle_ext_handlers hs)[i]? = some (OrchEvent.handled h) →
      0 ≤ h.sortKey ∧ h.sortKey < maxSortKey hs →
      (handle_ext_handlers hs)[i + 1]? = some (OrchEvent.waited h h.waitOk)) ∧
    (∀ i h, (handle_ext_handlers hs)[i]? = some (OrchEvent.waited h false) →
      (handle_ext_handlers hs)[i + 1]? = none) ∧
    handle_ext_handlers [⟨0, 0, false⟩, ⟨1, 1, true⟩, ⟨2, 2, true⟩] =
      [OrchEvent.handled ⟨0, 0, false⟩, OrchEvent.waited ⟨0, 0, false⟩ false] := by
  refine ⟨⟨List.sorted_insertionSort ghLe hs, List.perm_insertionSort ghLe hs⟩,
    le_maxSortKey hs, ?_, ?_, ?_, by decide⟩
  · intro h b hmem
    cases hs with
    | nil => simp [handle_ext_handlers] at hmem
    | cons g gs => exact processHandlers_waited_gated _ _ h b hmem
  · intro i h hi hg
    cases hs with
    | nil => simp [handle_ext_handlers] at hi
    | cons g gs => exact processHandlers_wait_follows _ _ i h hi hg
  · intro i h hi
    cases hs with
    | nil => simp [handle_ext_handlers] at hi
    | cons g gs => exact processHandlers_abort _ _ i h hi

/-- Witness for C4 at the P2 scenario. -/
theorem C4_dependency_gating_witness :
    OrchEvent.waited ⟨0, 0, false⟩ false ∈
      handle_ext_handlers [⟨0, 0, false⟩, ⟨1, 1, true⟩, ⟨2, 2, true⟩] ∧
    (0 ≤ ((⟨0, 0, false⟩ : GoalHandler)).sortKey ∧
      ((⟨0, 0, false⟩ : GoalHandler)).sortKey <
        maxSortKey [⟨0, 0, false⟩, ⟨1, 1, true⟩, ⟨2, 2, true⟩]) ∧
    (handle_ext_handlers [⟨0, 0, false⟩, ⟨1, 1, true⟩, ⟨2, 2, true⟩])[1]? =
      some (OrchEvent.waited ⟨0, 0, false⟩ false) ∧
    (handle_ext_handlers [⟨0, 0, false⟩, ⟨1, 1, true⟩, ⟨2, 2, true⟩])[2]? = none :=
  ⟨by decide,
   (C4_dependency_gating [⟨0, 0, false⟩, ⟨1, 1, true⟩, ⟨2, 2, true⟩]).2.2.1
     ⟨0, 0, false⟩ false (by decide),
   by decide,
   (C4_dependency_gating [⟨0, 0, false⟩, ⟨1, 1, true⟩, ⟨2, 2, true⟩]).2.2.2.2.1
     1 ⟨0, 0, false⟩ (by decide)⟩

/-! ## C6: version decision. -/

theorem versionLe_refl : ∀ v : List Nat, versionLe v v = true
  | [] => rfl
  | a :: xs => by simp [versionLe, lt_irrefl, versionLe_refl xs]

theorem versionLe_total : ∀ a b : List Nat, versionLe a b = true ∨ versionLe b a = true
  | [], _ => Or.inl rfl
  | _ :: _, [] => Or.inr rfl
  | a :: xs, b :: ys => by
    rcases lt_trichotomy a b with h | h | h
    · left
      simp [versionLe, h]
    · subst h
      rcases versionLe_total xs ys with ih | ih
      · left
        simp [versionLe, lt_irrefl, ih]
      · right
        simp [versionLe, lt_irrefl, ih]
    · right
      simp [versionLe, h]

theorem versionLe_trans : ∀ a b c : List Nat,
    versionLe a b = true → versionLe b c = true → versionLe a c = true
  | [], _, _, _, _ => rfl
  | _ :: _, [], _, hab, _ => by simp [versionLe] at hab
  | _ :: _, _ :: _, [], _, hbc => by simp [versionLe] at hbc
  | a :: xs, b :: ys, c :: zs, hab, hbc => by
    rcases lt_trichotomy a b with h1 | h1 | h1
    · rcases lt_trichotomy b c with h2 | h2 | h2
      · simp [versionLe, lt_trans h1 h2]
      · subst h2
        simp [versionLe, h1]
      · rw [versionLe, if_neg (by omega), if_pos h2] at hbc
        cases hbc
    · subst h1
      rcases lt_trichotomy a c with h2 | h2 | h2
      · simp [versionLe, h2]
      · subst h2
        rw [versionLe, if_neg (lt_irrefl a), if_neg (lt_irrefl a)] at hab hbc
        simp [versionLe, lt_irrefl, versionLe_trans xs ys zs hab hbc]
      · rw [versionLe, if_neg (by omega), if_pos h2] at hbc
        cases hbc
    · rw [versionLe, if_neg (by omega), if_pos h1] at hab
      cases hab

theorem pkgLe_refl (p : ExtensionPkg) : pkgLe p p := versionLe_refl p.version

instance : IsTotal ExtensionPkg pkgLe := ⟨fun p q => versionLe_total p.version q.version⟩

instance : IsTrans ExtensionPkg pkgLe :=
  ⟨fun _ _ _ hab hbc => versionLe_trans _ _ _ hab hbc⟩

/-- The one-pass scan that fills `installed_pkg` and `selected_pkg`
simultaneously computes the same result as two independent last-match
scans. -/
theorem scanPair_eq (f g : ExtensionPkg → Bool) (l : List ExtensionPkg) :
    ∀ a b : Option ExtensionPkg,
      l.foldl (fun acc pkg =>
        (if f pkg then some pkg else acc.1, if g pkg then some pkg else acc.2)) (a, b) =
      (l.foldl (fun acc pkg => if f pkg then some pkg else acc) a,
       l.foldl (fun acc pkg => if g pkg then some pkg else acc) b) := by
  induction l with
  | nil =>
    intro a b
    rfl
  | cons x xs ih =>
    intro a b
    simp only [List.foldl_cons]
    exact ih _ _

/-- The last-match scan returns its accumulator when nothing matches. -/
theorem foldl_lastMatch_no (f : ExtensionPkg → Bool) (l : List ExtensionPkg) :
    ∀ acc, (∀ p ∈ l, f p = false) →
      l.foldl (fun acc pkg => if f pkg then some pkg else acc) acc = acc := by
  induction l with
  | nil =>
    intro acc _
    rfl
  | cons x xs ih =>
    intro acc hno
    have hx : f x = false := hno x (List.mem_cons_self _ _)
    simp only [List.foldl_cons, hx, Bool.false_eq_true, if_false]
    exact ih acc (fun p hp => hno p (List.mem_cons_of_mem x hp))

/-- A `some` result of the last-match scan is a matching member, unless it is
the accumulator itself. -/
theorem foldl_lastMatch_some (f : ExtensionPkg → Bool) (l : List ExtensionPkg) :
    ∀ acc q, l.foldl (fun acc pkg => if f pkg then some pkg else acc) acc = some q →
      (q ∈ l ∧ f q = true) ∨ acc = some q := by
  induction l with
  | nil =>
    intro acc q h
    exact Or.inr h
  | cons x xs ih =>
    intro acc q h
    simp only [List.foldl_cons] at h
    by_cases hx : f x = true
    · rw [if_pos hx] at h
      rcases ih (some x) q h with ⟨hm, hf⟩ | hacc
      · exact Or.inl ⟨List.mem_cons_of_mem x hm, hf⟩
      · obtain rfl := Option.some.inj hacc
        exact Or.inl ⟨List.mem_cons_self _ _, hx⟩
    · rw [if_neg hx] at h
      rcases ih acc q h with ⟨hm, hf⟩ | hacc
      · exact Or.inl ⟨List.mem_cons_of_mem x hm, hf⟩
      · exact Or.inr hacc

/-- On a sorted list, whenever some element matches, the last-match scan
returns a matching element that dominates every matching element. -/
theorem foldl_lastMatch_dominates (f : ExtensionPkg → Bool) :
    ∀ (l : List ExtensionPkg) (acc : Option ExtensionPkg),
      (∃ w ∈ l, f w = true) →
      ∃ q, l.foldl (fun acc pkg => if f pkg then some pkg else acc) acc = some q ∧
        q ∈ l ∧ f q = true ∧
        (List.Sorted pkgLe l → ∀ p ∈ l, f p = true → pkgLe p q) := by
  intro l
  induction l with
  | nil =>
    rintro acc ⟨w, hw, -⟩
    simp at hw
  | cons x xs ih =>
    intro acc hex
    by_cases htail : ∃ w ∈ xs, f w = true
    · obtain ⟨q, hq, hqmem, hfq, hdom⟩ := ih (if f x then some x else acc) htail
      refine ⟨q, by simpa using hq, List.mem_cons_of_mem x hqmem, hfq, ?_⟩
      intro hpw p hp hfp
      obtain ⟨hx_all, hxs_pw⟩ := List.sorted_cons.mp hpw
      rcases List.mem_cons.mp hp with rfl | hp2
      · exact hx_all q hqmem
      · exact hdom hxs_pw p hp2 hfp
    · have hfx : f x = true := by
        obtain ⟨w, hw, hfw⟩ := hex
        rcases List.mem_cons.mp hw with rfl | hw2
        · exact hfw
        · exact absurd ⟨w, hw2, hfw⟩ htail
      have hno : ∀ p ∈ xs, f p = false := by
        intro p hp
        cases hfp : f p
        · rfl
        · exact absurd ⟨p, hp, hfp⟩ htail
      refine ⟨x, ?_, List.mem_cons_self _ _, hfx, ?_⟩
      · simp only [List.foldl_cons, hfx, if_true]
        exact foldl_lastMatch_no f xs (some x) hno
      · intro _ p hp hfp
        rcases List.mem_cons.mp hp with rfl | hp2
        · exact pkgLe_refl p
        · rw [hno p hp2] at hfp
          cases hfp

/-- A `none` result of the last-match scan means nothing matched. -/
theorem foldl_lastMatch_none (f : ExtensionPkg → Bool) (l : List ExtensionPkg)
    (h : l.foldl (fun acc pkg => if f pkg then some pkg else acc) none = none) :
    ∀ p ∈ l, f p = false := by
  intro p hp
  cases hfp : f p
  · rfl
  · obtain ⟨q, hq, -⟩ := foldl_lastMatch_dominates f l none ⟨p, hp, hfp⟩
    rw [h] at hq
    cases hq

/-- In the enabled branch, `decide_version` selects a matching package that
dominates every matching package. -/
theorem decide_version_enabled_greatest (pkgs : List ExtensionPkg)
    (requested : VersionSpec) (instOpt : Option VersionSpec) (target : String)
    (ht : ¬(target = "uninstall" ∨ target = "disabled"))
    (p : ExtensionPkg) (hp : p ∈ pkgs) (hm : requested.matches p.version = true) :
    ∃ q, (decide_version pkgs requested instOpt target).pkg = some q ∧
      requested.matches q.version = true ∧ versionLe p.version q.version = true := by
  have hperm := List.perm_insertionSort pkgLe pkgs
  have hsort := List.sorted_insertionSort pkgLe pkgs
  have hpS : p ∈ List.insertionSort pkgLe pkgs := hperm.mem_iff.mpr hp
  obtain ⟨q, hq, hqmem, hfq, hdom⟩ :=
    foldl_lastMatch_dominates (fun pkg => requested.matches pkg.version)
      (List.insertionSort pkgLe pkgs) none ⟨p, hpS, hm⟩
  refine ⟨q, ?_, hfq, hdom hsort p hpS hm⟩
  simp only [decide_version, scanPair_eq]
  rw [if_neg ht]
  simpa using hq

/-- In the enabled branch, a selected package is a matching member of the
list and becomes the handler's working version. -/
theorem decide_version_enabled_pkg (pkgs : List ExtensionPkg) (requested : VersionSpec)
    (instOpt : Option VersionSpec) (target : String)
    (ht : ¬(target = "uninstall" ∨ target = "disabled"))
    (q : ExtensionPkg) (hq : (decide_version pkgs requested instOpt target).pkg = some q) :
    q ∈ pkgs ∧ requested.matches q.version = true ∧
    (decide_version pkgs requested instOpt target).handlerVersion =
      some { parts := q.version, hasStar := false } := by
  have hperm := List.perm_insertionSort pkgLe pkgs
  cases hsel : (List.insertionSort pkgLe pkgs).foldl
      (fun acc pkg => if requested.matches pkg.version then some pkg else acc) none with
  | none =>
    have hn : (decide_version pkgs requested instOpt target).pkg = none := by
      simp only [decide_version, scanPair_eq]
      rw [if_neg ht]
      simpa using hsel
    rw [hn] at hq
    cases hq
  | some w =>
    have hres : (decide_version pkgs requested instOpt target).pkg = some w := by
      simp only [decide_version, scanPair_eq]
      rw [if_neg ht]
      simpa using hsel
    have hph : w = q := by
      rw [hres] at hq
      exact Option.some.inj hq
    subst hph
    rcases foldl_lastMatch_some _ _ none w hsel with ⟨hm, hf⟩ | hcc
    · refine ⟨hperm.mem_iff.mp hm, hf, ?_⟩
      simp only [decide_version, scanPair_eq]
      rw [if_neg ht]
      simp [hsel]
    · cases hcc

/-- In the uninstall/disabled branch, the result is the exactly-installed
package and the working version is pinned to the installed version. -/
theorem decide_version_uninstall_branch (pkgs : List ExtensionPkg)
    (requested : VersionSpec) (instOpt : Option VersionSpec) (target : String)
    (ht : target = "uninstall" ∨ target = "disabled") :
    (decide_version pkgs requested instOpt target).handlerVersion =
      some (instOpt.getD requested) ∧
    (∀ q, (decide_version pkgs requested instOpt target).pkg = some q →
      q ∈ pkgs ∧ (instOpt.getD requested).eqVersion q.version = true) ∧
    ((decide_version pkgs requested instOpt target).pkg = none ↔
      ∀ p ∈ pkgs, (instOpt.getD requested).eqVersion p.version = false) := by
  have hperm := List.perm_insertionSort pkgLe pkgs
  refine ⟨?_, ?_, ?_⟩
  · simp only [decide_version, scanPair_eq]
    rw [if_pos ht]
  · intro q hq
    simp only [decide_version, scanPair_eq] at hq
    rw [if_pos ht] at hq
    simp only at hq
    rcases foldl_lastMatch_some _ _ none q hq with ⟨hm, hf⟩ | hcc
    · exact ⟨hperm.mem_iff.mp hm, hf⟩
    · cases hcc
  · constructor
    · intro hn p hp
      simp only [decide_version, scanPair_eq] at hn
      rw [if_pos ht] at hn
      simp only at hn
      exact foldl_lastMatch_none _ _ hn p (hperm.mem_iff.mpr hp)
    · intro hall
      simp only [decide_version, scanPair_eq]
      rw [if_pos ht]
      simpa using foldl_lastMatch_no _ _ none
        (fun p hp => hall p (hperm.mem_iff.mp hp))

/-- `is_upgrade` is set exactly when there is no installed package or the
resulting package's version differs from the installed one. -/
theorem decide_version_is_upgrade_iff (pkgs : List ExtensionPkg)
    (requested : VersionSpec) (instOpt : Option VersionSpec) (target : String) :
    (decide_version pkgs requested instOpt target).is_upgrade = true ↔
      (∀ p ∈ pkgs, (instOpt.getD requested).eqVersion p.version = false) ∨
      (∃ q, (decide_version pkgs requested instOpt target).pkg = some q ∧
        (instOpt.getD requested).eqVersion q.version = false) := by
  have hperm := List.perm_insertionSort pkgLe pkgs
  cases hinst : (List.insertionSort pkgLe pkgs).foldl
      (fun acc pkg =>
        if (instOpt.getD requested).eqVersion pkg.version then some pkg else acc) none with
  | none =>
    have hup : (decide_version pkgs requested instOpt target).is_upgrade = true := by
      simp only [decide_version, scanPair_eq]
      simp [hinst]
    have hall : ∀ p ∈ pkgs, (instOpt.getD requested).eqVersion p.version = false :=
      fun p hp => foldl_lastMatch_none _ _ hinst p (hperm.mem_iff.mpr hp)
    rw [hup]
    simp only [true_iff]
    exact Or.inl hall
  | some ip =>
    have hip : ip ∈ List.insertionSort pkgLe pkgs ∧
        (instOpt.getD requested).eqVersion ip.version = true := by
      rcases foldl_lastMatch_some _ _ none ip hinst with h | h
      · exact h
      · cases h
    have hstar : (instOpt.getD requested).hasStar = false ∧
        (instOpt.getD requested).parts = ip.version := by
      have h2 := hip.2
      simp [VersionSpec.eqVersion] at h2
      exact h2
    have hleft : ¬(∀ p ∈ pkgs, (instOpt.getD requested).eqVersion p.version = false) := by
      intro hall
      have := hall ip (hperm.mem_iff.mp hip.1)
      rw [hip.2] at this
      cases this
    have heqw : ∀ w : List Nat,
        ((instOpt.getD requested).eqVersion w = false ↔ w ≠ ip.version) := by
      intro w
      simp [VersionSpec.eqVersion, hstar.1, hstar.2]
      constructor
      · intro h hwe
        exact h hwe.symm
      · intro h hwe
        exact h hwe.symm
    by_cases htgt : target = "uninstall" ∨ target = "disabled"
    · have hres : (decide_version pkgs requested instOpt target).pkg = some ip := by
        simp only [decide_version, scanPair_eq]
        rw [if_pos htgt]
        simpa using hinst
      have hup : (decide_version pkgs requested instOpt target).is_upgrade = false := by
        simp only [decide_version, scanPair_eq]
        rw [if_pos htgt]
        simp [hinst]
      rw [hup, hres]
      simp [hleft]
      exact hip.2
    · cases hsel : (List.insertionSort pkgLe pkgs).foldl
          (fun acc pkg => if requested.matches pkg.version then some pkg else acc) none with
      | none =>
        have hres : (decide_version pkgs requested instOpt target).pkg = none := by
          simp only [decide_version, scanPair_eq]
          rw [if_neg htgt]
          simpa using hsel
        have hup : (decide_version pkgs requested instOpt target).is_upgrade = false := by
          simp only [decide_version, scanPair_eq]
          rw [if_neg htgt]
          simp [hinst, hsel]
        rw [hup, hres]
        simp [hleft]
      | some w =>
        have hres : (decide_version pkgs requested instOpt target).pkg = some w := by
          simp only [decide_version, scanPair_eq]
          rw [if_neg htgt]
          simpa using hsel
        have hup : (decide_version pkgs requested instOpt target).is_upgrade =
            decide (w.version ≠ ip.version) := by
          simp only [decide_version, scanPair_eq]
          rw [if_neg htgt]
          simp [hinst, hsel]
        rw [hup, hres]
        constructor
        · intro hd
          right
          refine ⟨w, rfl, ?_⟩
          rw [heqw w.version]
          exact of_decide_eq_true hd
        · intro hd
          rcases hd with hl | ⟨q, hqe, hqne⟩
          · exact absurd hl hleft
          · have hwq : w = q := Option.some.inj hqe
            rw [hwq]
            exact decide_eq_true ((heqw q.version).mp hqne)

/-- C6: with target `enabled`, `decide_version` selects the greatest available
package matching the (glob-capable) requested version; with target
`uninstall` or `disabled` it selects the exactly-installed package and pins
the working version to the installed version; `is_upgrade` is set exactly
when no package carries the installed version or the chosen package's version
differs from the installed one; and P3: installed 1.0.0, requested 1.* over
1.0.0, 1.0.5, 1.1.2, 2.0.0 selects 1.1.2 with `is_upgrade` true. -/
theorem C6_decide_version (pkgs : List ExtensionPkg) (requested : VersionSpec)
    (instOpt : Option VersionSpec) (target : String) :
    (¬(target = "uninstall" ∨ target = "disabled") →
      (∀ p ∈ pkgs, requested.matches p.version = true →
        ∃ q, (decide_version pkgs requested instOpt target).pkg = some q ∧
          requested.matches q.version = true ∧ versionLe p.version q.version = true) ∧
      (∀ q, (decide_version pkgs requested instOpt target).pkg = some q →
        q ∈ pkgs ∧ requested.matches q.version = true ∧
        (decide_version pkgs requested instOpt target).handlerVersion =
          some { parts := q.version, hasStar := false })) ∧
    ((target = "uninstall" ∨ target = "disabled") →
      (decide_version pkgs requested instOpt target).handlerVersion =
        some (instOpt.getD requested) ∧
      (∀ q, (decide_version pkgs requested instOpt target).pkg = some q →
        q ∈ pkgs ∧ (instOpt.getD requested).eqVersion q.version = true) ∧
      ((decide_version pkgs requested instOpt target).pkg = none ↔
        ∀ p ∈ pkgs, (instOpt.getD requested).eqVersion p.version = false)) ∧
    ((decide_version pkgs requested instOpt target).is_upgrade = true ↔
      (∀ p ∈ pkgs, (instOpt.getD requested).eqVersion p.version = false) ∨
      (∃ q, (decide_version pkgs requested instOpt target).pkg = some q ∧
        (instOpt.getD requested).eqVersion q.version = false)) ∧
    decide_version [⟨[1, 0, 0], ["a"]⟩, ⟨[1, 0, 5], ["b"]⟩, ⟨[1, 1, 2], ["c"]⟩,
        ⟨[2, 0, 0], ["d"]⟩] ⟨[1], true⟩ (some ⟨[1, 0, 0], false⟩) "enabled" =
      { pkg := some ⟨[1, 1, 2], ["c"]⟩, handlerVersion := some ⟨[1, 1, 2], false⟩,
        is_upgrade := true } := by
  refine ⟨fun ht => ⟨fun p hp hm =>
      decide_version_enabled_greatest pkgs requested instOpt target ht p hp hm,
      fun q hq => decide_version_enabled_pkg pkgs requested instOpt target ht q hq⟩,
    fun ht => decide_version_uninstall_branch pkgs requested instOpt target ht,
    decide_version_is_upgrade_iff pkgs requested instOpt target,
    by decide⟩

/-- Witness for C6 at the P3 scenario. -/
theorem C6_decide_version_witness :
    (¬(("enabled" : String) = "uninstall" ∨ ("enabled" : String) = "disabled")) ∧
    (⟨[1, 0, 5], ["b"]⟩ : ExtensionPkg) ∈
      ([⟨[1, 0, 0], ["a"]⟩, ⟨[1, 0, 5], ["b"]⟩, ⟨[1, 1, 2], ["c"]⟩,
        ⟨[2, 0, 0], ["d"]⟩] : List ExtensionPkg) ∧
    (∃ q, (decide_version [⟨[1, 0, 0], ["a"]⟩, ⟨[1, 0, 5], ["b"]⟩, ⟨[1, 1, 2], ["c"]⟩,
        ⟨[2, 0, 0], ["d"]⟩] ⟨[1], true⟩ (some ⟨[1, 0, 0], false⟩) "enabled").pkg = some q ∧
      VersionSpec.matches ⟨[1], true⟩ q.version = true ∧
      versionLe [1, 0, 5] q.version = true) :=
  ⟨by decide, by decide,
   ((C6_decide_version [⟨[1, 0, 0], ["a"]⟩, ⟨[1, 0, 5], ["b"]⟩, ⟨[1, 1, 2], ["c"]⟩,
      ⟨[2, 0, 0], ["d"]⟩] ⟨[1], true⟩ (some ⟨[1, 0, 0], false⟩) "enabled").1
     (by decide)).1 ⟨[1, 0, 5], ["b"]⟩ (by decide) (by decide)⟩

/-! ## C5: waiting for terminal success. -/

/-- The status returned by `is_ext_handling_complete` is the status it was
given. -/
theorem is_ext_handling_complete_snd (s : Option String) :
    (is_ext_handling_complete s).2 = s := by
  cases s with
  | none => rfl
  | some st =>
    simp only [is_ext_handling_complete]
    split <;> rfl

/-- The poll loop stops immediately on a complete status. -/
theorem pollLoop_exit (f : Nat → Option String) (d t : Nat)
    (h : (is_ext_handling_complete (f t)).1 = true) :
    pollLoop f d t = (t, f t) := by
  rw [pollLoop, if_pos h, is_ext_handling_complete_snd]

/-- The poll loop also stops, with the stale status, once past the
deadline. -/
theorem pollLoop_exit_late (f : Nat → Option String) (d t : Nat)
    (h : ¬(is_ext_handling_complete (f t)).1 = true) (hlt : ¬t ≤ d) :
    pollLoop f d t = (t, f t) := by
  rw [pollLoop, if_neg h, dif_neg hlt, is_ext_handling_complete_snd]

/-- While incomplete and within the deadline, the poll loop sleeps 5 seconds
and retries. -/
theorem pollLoop_step (f : Nat → Option String) (d t : Nat)
    (h : ¬(is_ext_handling_complete (f t)).1 = true) (hle : t ≤ d) :
    pollLoop f d t = pollLoop f d (t + 5) := by
  rw [pollLoop, if_neg h, dif_pos hle]

/-- The poll loop lands on the first poll instant that is complete or past
the deadline. -/
theorem pollLoop_spec_aux (f : Nat → Option String) (d : Nat) :
    ∀ n t, d + 5 - t ≤ 5 * n →
      ∃ k, pollLoop f d t = (t + 5 * k, f (t + 5 * k)) ∧
        (∀ j < k, (is_ext_handling_complete (f (t + 5 * j))).1 = false ∧ t + 5 * j ≤ d) ∧
        ((is_ext_handling_complete (f (t + 5 * k))).1 = true ∨ d < t + 5 * k) := by
  intro n
  induction n with
  | zero =>
    intro t hn
    by_cases hc : (is_ext_handling_complete (f t)).1 = true
    · refine ⟨0, ?_, ?_, Or.inl (by simpa using hc)⟩
      · simpa using pollLoop_exit f d t hc
      · intro j hj
        omega
    · refine ⟨0, ?_, ?_, Or.inr (by omega)⟩
      · simpa using pollLoop_exit_late f d t hc (by omega)
      · intro j hj
        omega
  | succ n ih =>
    intro t hn
    by_cases hc : (is_ext_handling_complete (f t)).1 = true
    · refine ⟨0, ?_, ?_, Or.inl (by simpa using hc)⟩
      · simpa using pollLoop_exit f d t hc
      · intro j hj
        omega
    · by_cases hle : t ≤ d
      · obtain ⟨k, hk, hprev, hexit⟩ := ih (t + 5) (by omega)
        refine ⟨k + 1, ?_, ?_, ?_⟩
        · rw [pollLoop_step f d t hc hle, hk]
          have : t + 5 + 5 * k = t + 5 * (k + 1) := by ring
          rw [this]
        · intro j hj
          match j with
          | 0 =>
            constructor
            · simpa using (Bool.not_eq_true _).mp hc
            · simpa using hle
          | (j' + 1) =>
            have := hprev j' (by omega)
            have he : t + 5 + 5 * j' = t + 5 * (j' + 1) := by ring
            rw [he] at this
            exact this
        · have he : t + 5 + 5 * k = t + 5 * (k + 1) := by ring
          rw [he] at hexit
          exact hexit
      · refine ⟨0, ?_, ?_, Or.inr (by omega)⟩
        · simpa using pollLoop_exit_late f d t hc hle
        · intro j hj
          omega

/-- Existential form of the poll-loop characterization. -/
theorem pollLoop_spec (f : Nat → Option String) (d t : Nat) :
    ∃ k, pollLoop f d t = (t + 5 * k, f (t + 5 * k)) ∧
      (∀ j < k, (is_ext_handling_complete (f (t + 5 * j))).1 = false ∧ t + 5 * j ≤ d) ∧
      ((is_ext_handling_complete (f (t + 5 * k))).1 = true ∨ d < t + 5 * k) :=
  pollLoop_spec_aux f d (d + 5) t (by omega)

/-- If the status stream first completes with `success` at poll instant
`t + 5k` within the deadline, the poll loop lands exactly there. -/
theorem pollLoop_of_reaches (f : Nat → Option String) (d : Nat) :
    ∀ (k t : Nat), t + 5 * k ≤ d → f (t + 5 * k) = some EXTENSION_STATUS_SUCCESS →
      (∀ j < k, (is_ext_handling_complete (f (t + 5 * j))).1 = false) →
      pollLoop f d t = (t + 5 * k, f (t + 5 * k)) := by
  intro k
  induction k with
  | zero =>
    intro t hk hs _
    have hc : (is_ext_handling_complete (f t)).1 = true := by
      have h0 : f (t + 5 * 0) = f t := by norm_num
      rw [h0] at hs
      rw [hs]
      simp [is_ext_handling_complete, EXTENSION_TERMINAL_STATUSES, EXTENSION_STATUS_SUCCESS]
    simpa using pollLoop_exit f d t hc
  | succ k ih =>
    intro t hk hs hprev
    have h0 : (is_ext_handling_complete (f t)).1 = false := by
      have := hprev 0 (by omega)
      simpa using this
    have hle : t ≤ d := by omega
    rw [pollLoop_step f d t (by simp [h0]) hle]
    have he : t + 5 * (k + 1) = (t + 5) + 5 * k := by ring
    rw [he] at hs hk ⊢
    exact ih (t + 5) hk hs (fun j hj => by
      have := hprev (j + 1) (by omega)
      have he2 : t + 5 * (j + 1) = (t + 5) + 5 * j := by ring
      rw [he2] at this
      exact this)

/-- One sub-extension is gated successfully exactly when its status stream
first completes with `success` within the deadline. -/
theorem pollLoop_success_iff (f : Nat → Option String) (d t : Nat) :
    ((pollLoop f d t).1 ≤ d ∧ (pollLoop f d t).2 = some EXTENSION_STATUS_SUCCESS) ↔
      extReachesSuccess f t d := by
  constructor
  · rintro ⟨h1, h2⟩
    obtain ⟨k, hk, hprev, -⟩ := pollLoop_spec f d t
    rw [hk] at h1 h2
    simp only at h1 h2
    exact ⟨k, h1, h2, fun j hj => (hprev j hj).1⟩
  · rintro ⟨k, hk, hs, hprev⟩
    rw [pollLoop_of_reaches f d k t hk hs hprev]
    exact ⟨by simpa using hk, by simpa using hs⟩

/-- The wait returns true exactly when every sub-extension, polled in order,
first completes with `success` within the deadline. -/
theorem wait_iff_allReachSuccess (exts : List SubExt) (deadline : Nat) :
    ∀ t, wait_for_handler_successful_completion exts deadline t = true ↔
      allReachSuccess exts deadline t := by
  induction exts with
  | nil =>
    intro t
    simp [wait_for_handler_successful_completion, allReachSuccess]
  | cons e rest ih =>
    intro t
    simp only [wait_for_handler_successful_completion, allReachSuccess]
    constructor
    · intro hw
      by_cases h1 : deadline < (pollLoop e.statusAt deadline t).1
      · rw [if_pos h1] at hw
        cases hw
      · rw [if_neg h1] at hw
        by_cases h2 : (pollLoop e.statusAt deadline t).2 ≠ some EXTENSION_STATUS_SUCCESS
        · rw [if_pos h2] at hw
          cases hw
        · rw [if_neg h2] at hw
          push_neg at h2
          exact ⟨(pollLoop_success_iff e.statusAt deadline t).mp ⟨by omega, h2⟩,
            (ih _).mp hw⟩
    · rintro ⟨hre, hrest⟩
      have hps := (pollLoop_success_iff e.statusAt deadline t).mpr hre
      rw [if_neg (by omega), if_neg (by simp [hps.2])]
      exact (ih _).mpr hrest

/-- A constant-`None` status stream (no goal-state sequence number and no
settings file) completes the poll immediately but forces the wait to return
false. -/
theorem wait_null_false (exts : List SubExt) (deadline : Nat) (e : SubExt)
    (he : e ∈ exts) (hnull : ∀ u, e.statusAt u = none) :
    ∀ t, wait_for_handler_successful_completion exts deadline t = false := by
  induction exts with
  | nil => cases he
  | cons e' rest ih =>
    intro t
    simp only [wait_for_handler_successful_completion]
    rcases List.mem_cons.mp he with rfl | he2
    · have hc : (is_ext_handling_complete (e.statusAt t)).1 = true := by
        rw [hnull t]
        rfl
      have hp : pollLoop e.statusAt deadline t = (t, e.statusAt t) :=
        pollLoop_exit e.statusAt deadline t hc
      rw [hp]
      by_cases h1 : deadline < t
      · rw [if_pos h1]
      · rw [if_neg h1, if_pos (by simp [hnull t])]
    · by_cases h1 : deadline < (pollLoop e'.statusAt deadline t).1
      · rw [if_pos h1]
      · rw [if_neg h1]
        by_cases h2 : (pollLoop e'.statusAt deadline t).2 ≠ some EXTENSION_STATUS_SUCCESS
        · rw [if_pos h2]
        · rw [if_neg h2]
          exact ih he2 _

/-- C5: `wait_for_handler_successful_completion` returns true exactly when
every sub-extension reaches the terminal status `success` before the deadline
(each polled from the instant the previous one finished); a sub-extension
with a null handling status — `seq_no < 0`, no goal-state sequence number and
no settings file — is reported complete by `get_ext_handling_status` and
`is_ext_handling_complete`, terminates its poll immediately, and makes the
function return false, never true. -/
theorem C5_wait_for_handler_successful_completion (exts : List SubExt)
    (deadline t : Nat) :
    (wait_for_handler_successful_completion exts deadline t = true ↔
      allReachSuccess exts deadline t) ∧
    (∀ fs : ExtHandlingFS, fs.seq_no < 0 →
      get_ext_handling_status fs = none ∧
      is_ext_handling_complete (get_ext_handling_status fs) = (true, none)) ∧
    (∀ f : Nat → Option String, ∀ u, f u = none →
      pollLoop f deadline u = (u, none)) ∧
    (∀ e ∈ exts, (∀ u, e.statusAt u = none) →
      wait_for_handler_successful_completion exts deadline t = false) := by
  refine ⟨wait_iff_allReachSuccess exts deadline t, ?_, ?_, ?_⟩
  · intro fs hfs
    have hg : get_ext_handling_status fs = none := by
      simp [get_ext_handling_status, hfs]
    exact ⟨hg, by rw [hg]; rfl⟩
  · intro f u hf
    have hc : (is_ext_handling_complete (f u)).1 = true := by
      rw [hf]
      rfl
    rw [pollLoop_exit f deadline u hc, hf]
  · intro e he hnull
    exact wait_null_false exts deadline e he hnull t

/-- Witness for C5: a single immediately-successful sub-extension gates
successfully, while a null-status sub-extension makes the wait fail. -/
theorem C5_wait_for_handler_successful_completion_witness :
    wait_for_handler_successful_completion [⟨fun _ => some "success"⟩] 100 0 = true ∧
    (⟨fun _ => none⟩ : SubExt) ∈ ([⟨fun _ => none⟩] : List SubExt) ∧
    wait_for_handler_successful_completion [⟨fun _ => none⟩] 100 0 = false :=
  ⟨(C5_wait_for_handler_successful_completion [⟨fun _ => some "success"⟩] 100 0).1.mpr
    ⟨⟨0, by omega, rfl, fun j hj => by omega⟩, trivial⟩,
   List.mem_cons_self _ _,
   (C5_wait_for_handler_successful_completion [⟨fun _ => none⟩] 100 0).2.2.2
     ⟨fun _ => none⟩ (List.mem_cons_self _ _) (fun _ => rfl)⟩
